import Mathlib

/-!
Verification of the Minesweeper engine (`src/minesweeper.py`).

The Python source is shallowly embedded below: `Cell` and `Grid` mirror the
classes of the same names; pure helpers become Lean functions and mutating
methods become state-passing functions `Grid → Grid`.  Mine placement is
parametrised by the list returned by `random.sample`; theorems take the
guarantees of `random.sample` (distinct, in-bounds positions of the requested
length) as hypotheses.
-/

set_option maxHeartbeats 1000000

/-- Mirrors `class Cell`: `has_mine`, `surrounding_mines_count`, `is_open`. -/
structure Cell where
  has_mine : Bool
  surrounding_mines_count : Nat
  is_open : Bool
deriving DecidableEq, Repr

/-- The cell produced by `Cell(has_mine=False, surrounding_mines_count=0)`. -/
def Cell.default0 : Cell := ⟨false, 0, false⟩

/-- Mirrors `Cell.open`: mark the cell as opened. -/
def Cell.openCell (cell : Cell) : Cell := { cell with is_open := true }

/-- Mirrors `Cell.unopened_non_mine`. -/
def Cell.unopened_non_mine (cell : Cell) : Bool :=
  !cell.is_open && !cell.has_mine

/-- Mirrors `class Grid`: `width`, `height`, the 2D cell array `cells`
(row-major, `cells[row][col]`), and the `hinted_cells` set.
(`difficulty` and `mine_count` are only read during construction and are
kept as parameters of the construction functions instead of fields.) -/
structure Grid where
  width : Nat
  height : Nat
  cells : List (List Cell)
  hinted_cells : Finset (Nat × Nat)
deriving DecidableEq

/-- Well-formedness of the 2D array: `height` rows, each of length `width`
(guaranteed by `_create_empty_cells` and preserved by every operation). -/
def Grid.Wf (g : Grid) : Prop :=
  g.cells.length = g.height ∧ ∀ row ∈ g.cells, row.length = g.width

instance (g : Grid) : Decidable g.Wf := by
  unfold Grid.Wf; infer_instance

/-- Read `self.cells[row][col]` (all in-bounds in the Python source; the
default is irrelevant there). -/
def Grid.getCell (g : Grid) (r c : Nat) : Cell :=
  (g.cells.getD r []).getD c Cell.default0

/-- Write `self.cells[row][col] = cell` (in-place mutation in Python). -/
def Grid.setCell (g : Grid) (r c : Nat) (cell : Cell) : Grid :=
  { g with cells := g.cells.set r ((g.cells.getD r []).set c cell) }

theorem Grid.width_setCell (g : Grid) (r c : Nat) (x : Cell) :
    (g.setCell r c x).width = g.width := rfl

theorem Grid.height_setCell (g : Grid) (r c : Nat) (x : Cell) :
    (g.setCell r c x).height = g.height := rfl

theorem Grid.hinted_setCell (g : Grid) (r c : Nat) (x : Cell) :
    (g.setCell r c x).hinted_cells = g.hinted_cells := rfl

theorem Grid.Wf.setCell {g : Grid} (h : g.Wf) (r c : Nat) (x : Cell) :
    (g.setCell r c x).Wf := by
  obtain ⟨hlen, hrow⟩ := h
  constructor
  · simpa [Grid.setCell] using hlen
  · intro row hmem
    simp only [Grid.setCell] at hmem
    rcases Nat.lt_or_ge r g.cells.length with hr | hr
    · rcases List.mem_or_eq_of_mem_set hmem with hmem' | rfl
      · exact hrow _ hmem'
      · rw [List.getD_eq_getElem _ _ hr, List.length_set]
        exact hrow _ (List.getElem_mem hr)
    · rw [List.set_eq_of_length_le (by omega)] at hmem
      exact hrow _ hmem

theorem getD_set_self_list {α : Type} (l : List α) (i : Nat) (x d : α) (h : i < l.length) :
    (l.set i x).getD i d = x := by
  rw [List.getD_eq_getElem _ _ (by rw [List.length_set]; exact h)]
  exact List.getElem_set_self _

theorem getD_set_ne_list {α : Type} (l : List α) (i j : Nat) (x d : α) (h : j ≠ i) :
    (l.set i x).getD j d = l.getD j d := by
  rcases Nat.lt_or_ge j l.length with h' | h'
  · rw [List.getD_eq_getElem _ _ (by rw [List.length_set]; exact h'),
      List.getD_eq_getElem _ _ h']
    exact List.getElem_set_ne (by omega) _
  · rw [List.getD_eq_default _ _ (by rw [List.length_set]; exact h'),
      List.getD_eq_default _ _ h']

theorem Grid.getCell_setCell_same {g : Grid} (h : g.Wf) {r c : Nat}
    (hr : r < g.height) (hc : c < g.width) (x : Cell) :
    (g.setCell r c x).getCell r c = x := by
  obtain ⟨hlen, hrow⟩ := h
  have hr' : r < g.cells.length := by omega
  have hrowlen : (g.cells.getD r []).length = g.width := by
    rw [List.getD_eq_getElem _ _ hr']
    exact hrow _ (List.getElem_mem hr')
  simp only [Grid.getCell, Grid.setCell]
  rw [getD_set_self_list _ _ _ _ hr']
  exact getD_set_self_list _ _ _ _ (by omega)

theorem Grid.getCell_setCell_other (g : Grid) {r c r' c' : Nat}
    (hne : r' ≠ r ∨ c' ≠ c) (x : Cell) :
    (g.setCell r c x).getCell r' c' = g.getCell r' c' := by
  simp only [Grid.getCell, Grid.setCell]
  by_cases hrr : r' = r
  · subst hrr
    have hcc : c' ≠ c := hne.resolve_left (by simp)
    rcases Nat.lt_or_ge r' g.cells.length with h' | h'
    · rw [getD_set_self_list _ _ _ _ h', getD_set_ne_list _ _ _ _ _ hcc]
    · rw [List.set_eq_of_length_le (by omega)]
  · rw [getD_set_ne_list _ _ _ _ _ hrr]

/-- Mirrors the reveal in `Minesweeper.play`:
`self.grid.cells[row][column].open()`. -/
def Grid.openCell (g : Grid) (r c : Nat) : Grid :=
  g.setCell r c (g.getCell r c).openCell

/-! ## Grid construction (`Grid.__init__` and helpers) -/

/-- Mirrors `Grid._generate_grid_coordinate_positions`: every `(row, col)`
of the grid in row-major order. -/
def grid_coordinate_positions (width height : Nat) : List (Nat × Nat) :=
  (List.range height).flatMap (fun row => (List.range width).map (fun col => (row, col)))

/-- Mirrors `Grid._create_empty_cells`. -/
def create_empty_cells (width height : Nat) : List (List Cell) :=
  List.replicate height (List.replicate width Cell.default0)

/-- Mirrors `Grid._place_mines`: set `has_mine = True` at each sampled
position. -/
def place_mines (g : Grid) (mine_positions : List (Nat × Nat)) : Grid :=
  mine_positions.foldl
    (fun g' p => g'.setCell p.1 p.2 { g'.getCell p.1 p.2 with has_mine := true }) g

/-- Mirrors `Grid._is_valid_position` (indices are natural numbers here, so
the Python conjunct `0 <= row_index` is automatic). -/
def is_valid_position (g : Grid) (row_index column_index : Nat) : Bool :=
  decide (row_index < g.height) && decide (column_index < g.width)

/-- `List.range' lo (hi - lo)`: the integers of Python's `range(lo, hi)`.
With truncated `Nat` subtraction, `rangeFromTo (r-1) (r+2)` for `r = 0`
yields `[0, 1]` where Python yields `[-1, 0, 1]`: the dropped `-1` never
passes `_is_valid_position` (nor bounds clamped by `max 0 _`), so nothing
observable changes. -/
def rangeFromTo (lo hi : Nat) : List Nat := List.range' lo (hi - lo)

/-- The 3×3 block that the two nested loops of
`Grid._set_surrounding_mine_count` enumerate around `(r, c)`. -/
def surrounding_block (r c : Nat) : List (Nat × Nat) :=
  (rangeFromTo (r - 1) (r + 2)).flatMap
    (fun i => (rangeFromTo (c - 1) (c + 2)).map (fun j => (i, j)))

/-- The count accumulated by the inner loops of
`Grid._set_surrounding_mine_count` for the cell at `(r, c)`. -/
def count_around (g : Grid) (r c : Nat) : Nat :=
  (surrounding_block r c).countP
    (fun p => is_valid_position g p.1 p.2 && (g.getCell p.1 p.2).has_mine)

/-- Mirrors `Grid._set_surrounding_mine_count`: store the count for every
non-mine position.  (Python iterates a `set`; the write targets are
distinct cells and only `has_mine` fields are read, so any order yields the
same grid — the development uses the row-major order chosen in
`build_grid`.) -/
def set_surrounding_mine_count (g : Grid) (non_mine_positions : List (Nat × Nat)) : Grid :=
  non_mine_positions.foldl
    (fun g' p =>
      g'.setCell p.1 p.2
        { g'.getCell p.1 p.2 with surrounding_mines_count := count_around g' p.1 p.2 }) g

/-- The `mine_count` assigned by the `difficulty` chain in `Grid.__init__`;
`none` when no branch assigns it (difficulty outside {1,2,3}).
`int(total * 0.10)` is `⌊total/10⌋`, and similarly for the other tiers. -/
def mine_count_for (width height difficulty : Nat) : Option Nat :=
  if difficulty = 1 then some (max 1 (width * height * 10 / 100))
  else if difficulty = 2 then some (max 2 (width * height * 15 / 100))
  else if difficulty = 3 then some (max 3 (width * height * 20 / 100))
  else none

/-- The Python exceptions that `Grid(...)` can raise. -/
inductive PyError where
  /-- `self.mine_count` referenced before assignment. -/
  | attributeError
  /-- `random.sample`: sample larger than population. -/
  | valueError
deriving DecidableEq, Repr

/-- Mirrors `Grid._set_cell_mines_and_surrounding_counts` for a given
sample. -/
def build_grid (width height : Nat) (sample : List (Nat × Nat)) : Grid :=
  let g0 : Grid := ⟨width, height, create_empty_cells width height, ∅⟩
  let g1 := place_mines g0 sample
  let non_mine := (grid_coordinate_positions width height).filter
    (fun p => decide (p ∉ sample))
  set_surrounding_mine_count g1 non_mine

/-- Mirrors `Grid.__init__`, parametrised by the list `random.sample`
returns.  No validation happens: an unassigned `mine_count` (difficulty
outside {1,2,3}) surfaces as an `AttributeError` inside
`_generate_mine_positions`, and `random.sample` raises `ValueError` when
`mine_count` exceeds the population `width * height`. -/
def grid_init (width height difficulty : Nat) (sample : List (Nat × Nat)) :
    Except PyError Grid :=
  match mine_count_for width height difficulty with
  | none => .error .attributeError
  | some mc =>
    if mc ≤ width * height then .ok (build_grid width height sample)
    else .error .valueError

/-! ## Queries and the hint search -/

/-- Mirrors `Grid.has_unopened_non_mines`. -/
def has_unopened_non_mines (g : Grid) : Bool :=
  g.cells.any (fun row => row.any (fun cell => cell.unopened_non_mine))

/-- Mirrors `Grid.is_cell_open`. -/
def is_cell_open (g : Grid) (row_index column_index : Nat) : Bool :=
  (g.getCell row_index column_index).is_open

/-- The seed condition of the scan in `Grid.hint`:
`(row, col) not in hinted_cells and not is_open and not has_mine`. -/
def hintable (g : Grid) (r c : Nat) : Bool :=
  decide ((r, c) ∉ g.hinted_cells) && !(g.getCell r c).is_open
    && !(g.getCell r c).has_mine

/-- The success condition of `Grid._recursive_backtrack_search`: the seed
condition plus `surrounding_mines_count == 0`. -/
def fully_safe (g : Grid) (r c : Nat) : Bool :=
  hintable g r c && decide ((g.getCell r c).surrounding_mines_count = 0)

/-- Mirrors `Grid.get_neighbours`. -/
def get_neighbours (g : Grid) (row col : Nat) : List (Nat × Nat) :=
  ((rangeFromTo (max 0 (row - 1)) (min g.height (row + 2))).flatMap
    (fun r => (rangeFromTo (max 0 (col - 1)) (min g.width (col + 2))).map
      (fun c => (r, c)))).filter (fun p => decide (p ≠ (row, col)))

/-- The `for`-loop over the neighbour list inside
`Grid._recursive_backtrack_search`: try each not-yet-visited neighbour in
order with the recursive search `f`, propagating the first success and
threading the (in Python: mutated in place) `visited` set. -/
def search_list (f : Nat × Nat → Finset (Nat × Nat) → Option (Nat × Nat) × Finset (Nat × Nat)) :
    List (Nat × Nat) → Finset (Nat × Nat) → Option (Nat × Nat) × Finset (Nat × Nat)
  | [], visited => (none, visited)
  | p :: rest, visited =>
    if p ∈ visited then search_list f rest visited
    else
      match f p visited with
      | (some res, visited') => (some res, visited')
      | (none, visited') => search_list f rest visited'

/-- Mirrors `Grid._recursive_backtrack_search`.  The mutable Python
`visited` set is threaded explicitly and returned alongside the result.
The Python recursion has no fuel; each nested call strictly grows
`visited` inside the grid, so its depth never exceeds `width * height`,
and `backtrack_search_fuel_stable` below proves that every
`fuel ≥ width * height` produces the same result. -/
def backtrack_search (g : Grid) : Nat → Nat → Nat → Finset (Nat × Nat) →
    Option (Nat × Nat) × Finset (Nat × Nat)
  | 0, _, _, visited => (none, visited)
  | fuel' + 1, row, col, visited =>
    let visited' := insert (row, col) visited
    if fully_safe g row col then (some (row, col), visited')
    else
      search_list (fun p V => backtrack_search g fuel' p.1 p.2 V)
        (get_neighbours g row col) visited'

/-- The neighbour loop at a given remaining recursion depth. -/
def search_neighbours (g : Grid) (fuel : Nat) (ps : List (Nat × Nat))
    (visited : Finset (Nat × Nat)) : Option (Nat × Nat) × Finset (Nat × Nat) :=
  search_list (fun p V => backtrack_search g fuel p.1 p.2 V) ps visited

/-- The row-major scan of `Grid.hint` over the remaining coordinates:
search from each eligible seed with a fresh empty `visited` set. -/
def hint_scan (g : Grid) : List (Nat × Nat) → Option (Nat × Nat)
  | [] => none
  | (row, col) :: rest =>
    if hintable g row col then
      match backtrack_search g (g.width * g.height) row col ∅ with
      | (some result, _) => some result
      | (none, _) => hint_scan g rest
    else hint_scan g rest

/-- Mirrors `Grid.hint`: scan the grid row-major; on success add the
returned coordinate to `hinted_cells`. -/
def Grid.hint (g : Grid) : Option (Nat × Nat) × Grid :=
  match hint_scan g (grid_coordinate_positions g.width g.height) with
  | some result => (some result, { g with hinted_cells := insert result g.hinted_cells })
  | none => (none, g)

/-! ## Example grids used by witnesses -/

/-- A 3×3 grid built exactly as `Grid(3, 3, 2)` would with
`random.sample` returning `[(0,0), (2,2)]` (difficulty 2 on 9 cells gives
`mine_count = max(2, int(9*0.15)) = 2`). -/
def exampleGrid : Grid := build_grid 3 3 [(0, 0), (2, 2)]

/-- A 2×2 grid built exactly as `Grid(2, 2, 1)` would with
`random.sample` returning `[(0,0)]` (`mine_count = max(1, int(4*0.10)) = 1`). -/
def exampleGrid22 : Grid := build_grid 2 2 [(0, 0)]

/-! ## C8: a reveal affects exactly one cell -/

/-- C8: for every board and every in-bounds, not-yet-revealed coordinate,
a successful reveal (`self.grid.cells[row][column].open()` in
`Minesweeper.play`) sets exactly that cell's `is_open` flag to true and
changes nothing else: the revealed cell keeps its `has_mine` and
`surrounding_mines_count`, every other cell is untouched, and the
dimensions and the `hinted_cells` set are unchanged (no auto-opening of
neighbours). -/
theorem reveal_affects_exactly_one_cell (g : Grid) (r c : Nat) (hwf : g.Wf)
    (hr : r < g.height) (hc : c < g.width)
    (hunopened : (g.getCell r c).is_open = false) :
    (g.openCell r c).getCell r c = { g.getCell r c with is_open := true } ∧
    (∀ r' c', r' ≠ r ∨ c' ≠ c → (g.openCell r c).getCell r' c' = g.getCell r' c') ∧
    ((g.openCell r c).getCell r c).has_mine = (g.getCell r c).has_mine ∧
    ((g.openCell r c).getCell r c).surrounding_mines_count
      = (g.getCell r c).surrounding_mines_count ∧
    (g.openCell r c).width = g.width ∧
    (g.openCell r c).height = g.height ∧
    (g.openCell r c).hinted_cells = g.hinted_cells ∧
    (g.openCell r c).Wf := by
  have hsame : (g.openCell r c).getCell r c = (g.getCell r c).openCell :=
    Grid.getCell_setCell_same hwf hr hc _
  refine ⟨hsame, ?_, ?_, ?_, rfl, rfl, rfl, hwf.setCell _ _ _⟩
  · intro r' c' hne
    exact Grid.getCell_setCell_other g hne _
  · rw [hsame]; rfl
  · rw [hsame]; rfl

/-- Witness for C8 at the concrete 3×3 example grid, revealing cell (1,1). -/
theorem reveal_affects_exactly_one_cell_witness :
    (exampleGrid.openCell 1 1).getCell 1 1
        = { exampleGrid.getCell 1 1 with is_open := true } ∧
    (∀ r' c', r' ≠ 1 ∨ c' ≠ 1 →
        (exampleGrid.openCell 1 1).getCell r' c' = exampleGrid.getCell r' c') ∧
    ((exampleGrid.openCell 1 1).getCell 1 1).has_mine
        = (exampleGrid.getCell 1 1).has_mine ∧
    ((exampleGrid.openCell 1 1).getCell 1 1).surrounding_mines_count
      = (exampleGrid.getCell 1 1).surrounding_mines_count ∧
    (exampleGrid.openCell 1 1).width = exampleGrid.width ∧
    (exampleGrid.openCell 1 1).height = exampleGrid.height ∧
    (exampleGrid.openCell 1 1).hinted_cells = exampleGrid.hinted_cells ∧
    (exampleGrid.openCell 1 1).Wf :=
  reveal_affects_exactly_one_cell exampleGrid 1 1 (by decide) (by decide)
    (by decide) (by decide)

/-! ## C5: construction never raises `InvalidConfiguration` -/

/-- C5 counterexample: `width = height = 1` violates the claimed
precondition `width ≥ 2`, yet `Grid(1, 1, 1)` constructs successfully
(`random.sample` legitimately returns `[(0,0)]` since
`mine_count = max(1, int(1*0.10)) = 1 ≤ 1`), so construction does not fail
at all — no `InvalidConfiguration` error exists anywhere in the code. -/
theorem grid_init_accepts_undersized_board :
    (grid_init 1 1 1 [(0, 0)]).isOk = true := by decide

/-- C5 (amended): `Grid.__init__` performs no validation.  With difficulty
in {1,2,3} it succeeds exactly when the derived `mine_count` fits the board
(`mine_count ≤ width*height`) — in particular for every width ≥ 2,
height ≥ 2, difficulty ∈ {1,2,3}, but also for undersized boards such as
1×1 at difficulty 1.  With difficulty outside {1,2,3} it fails with
`AttributeError` (`self.mine_count` never assigned); when `mine_count`
exceeds the cell count it fails with `ValueError` (from `random.sample`).
Neither failure is an `InvalidConfiguration`. -/
theorem grid_init_outcomes (width height difficulty : Nat)
    (sample : List (Nat × Nat)) :
    (∀ mc, mine_count_for width height difficulty = some mc →
        (mc ≤ width * height →
          grid_init width height difficulty sample
            = .ok (build_grid width height sample)) ∧
        (width * height < mc →
          grid_init width height difficulty sample = .error .valueError)) ∧
    (¬(difficulty = 1 ∨ difficulty = 2 ∨ difficulty = 3) →
      grid_init width height difficulty sample = .error .attributeError) ∧
    (2 ≤ width → 2 ≤ height → (difficulty = 1 ∨ difficulty = 2 ∨ difficulty = 3) →
      (grid_init width height difficulty sample).isOk = true) := by
  refine ⟨?_, ?_, ?_⟩
  · intro mc hmc
    constructor
    · intro hle
      simp [grid_init, hmc, hle]
    · intro hlt
      simp [grid_init, hmc, Nat.not_le.mpr hlt]
  · intro hd
    push_neg at hd
    obtain ⟨h1, h2, h3⟩ := hd
    simp [grid_init, mine_count_for, h1, h2, h3]
  · intro hw hh hd
    have hwh : 4 ≤ width * height := Nat.mul_le_mul hw hh
    rcases hd with rfl | rfl | rfl
    · have : mine_count_for width height 1 = some (max 1 (width * height * 10 / 100)) := rfl
      simp only [grid_init, this]
      rw [if_pos (by omega)]
      rfl
    · have : mine_count_for width height 2 = some (max 2 (width * height * 15 / 100)) := rfl
      simp only [grid_init, this]
      rw [if_pos (by omega)]
      rfl
    · have : mine_count_for width height 3 = some (max 3 (width * height * 20 / 100)) := rfl
      simp only [grid_init, this]
      rw [if_pos (by omega)]
      rfl

/-- Witness for the amended C5 at concrete inputs: difficulty 2 on a 3×3
board succeeds, difficulty 4 raises `AttributeError`, and difficulty 3 on a
1×2 board raises `ValueError`. -/
theorem grid_init_outcomes_witness :
    (grid_init 3 3 2 [(0, 0), (2, 2)]).isOk = true ∧
    grid_init 3 3 4 [] = .error .attributeError ∧
    grid_init 1 2 3 [] = .error .valueError :=
  ⟨(grid_init_outcomes 3 3 2 [(0, 0), (2, 2)]).2.2 (by decide) (by decide)
      (by decide),
   (grid_init_outcomes 3 3 4 []).2.1 (by decide),
   ((grid_init_outcomes 1 2 3 []).1 3 (by decide)).2 (by decide)⟩

/-! ## Characterizing construction -/

theorem grid_coordinate_positions_eq_product (width height : Nat) :
    grid_coordinate_positions width height = List.range height ×ˢ List.range width := rfl

theorem mem_grid_coordinate_positions (width height : Nat) (p : Nat × Nat) :
    p ∈ grid_coordinate_positions width height ↔ p.1 < height ∧ p.2 < width := by
  cases p with
  | mk r c => simp [grid_coordinate_positions, List.mem_flatMap]

theorem nodup_grid_coordinate_positions (width height : Nat) :
    (grid_coordinate_positions width height).Nodup := by
  rw [grid_coordinate_positions_eq_product]
  exact (List.nodup_range _).product (List.nodup_range _)

theorem length_grid_coordinate_positions (width height : Nat) :
    (grid_coordinate_positions width height).length = width * height := by
  rw [grid_coordinate_positions_eq_product, List.length_product, List.length_range,
    List.length_range, Nat.mul_comm]

/-- The freshly allocated grid (`_create_empty_cells`). -/
def empty_grid (width height : Nat) : Grid :=
  ⟨width, height, create_empty_cells width height, ∅⟩

theorem empty_grid_wf (width height : Nat) : (empty_grid width height).Wf := by
  constructor
  · simp [empty_grid, create_empty_cells]
  · intro row hrow
    rw [empty_grid] at hrow
    simp only [create_empty_cells, List.mem_replicate] at hrow
    show row.length = width
    rw [hrow.2, List.length_replicate]

theorem getCell_empty_grid (width height r c : Nat) (hr : r < height) (hc : c < width) :
    (empty_grid width height).getCell r c = Cell.default0 := by
  have h1 : (create_empty_cells width height).getD r [] = List.replicate width Cell.default0 := by
    rw [create_empty_cells, List.getD_eq_getElem _ _ (by simpa using hr),
      List.getElem_replicate]
  simp only [empty_grid, Grid.getCell]
  rw [h1, List.getD_eq_getElem _ _ (by simpa using hc), List.getElem_replicate]

theorem place_mines_fields (ms : List (Nat × Nat)) :
    ∀ g : Grid, g.Wf → (∀ p ∈ ms, p.1 < g.height ∧ p.2 < g.width) →
    (place_mines g ms).width = g.width ∧
    (place_mines g ms).height = g.height ∧
    (place_mines g ms).hinted_cells = g.hinted_cells ∧
    (place_mines g ms).Wf ∧
    ∀ r c, r < g.height → c < g.width →
      ((place_mines g ms).getCell r c).has_mine
          = ((g.getCell r c).has_mine || decide ((r, c) ∈ ms)) ∧
      ((place_mines g ms).getCell r c).surrounding_mines_count
          = (g.getCell r c).surrounding_mines_count ∧
      ((place_mines g ms).getCell r c).is_open = (g.getCell r c).is_open := by
  induction ms with
  | nil =>
    intro g hwf _
    refine ⟨rfl, rfl, rfl, hwf, ?_⟩
    intro r c _ _
    simp [place_mines]
  | cons p rest ih =>
    intro g hwf hms
    have hp := hms p (List.mem_cons_self _ _)
    have hunfold : place_mines g (p :: rest)
        = place_mines (g.setCell p.1 p.2 { g.getCell p.1 p.2 with has_mine := true }) rest := rfl
    obtain ⟨ihw, ihh, ihhint, ihwf, ihcell⟩ :=
      ih (g.setCell p.1 p.2 { g.getCell p.1 p.2 with has_mine := true })
        (hwf.setCell _ _ _) (fun q hq => hms q (List.mem_cons_of_mem _ hq))
    rw [hunfold]
    refine ⟨ihw, ihh, ihhint, ihwf, ?_⟩
    intro r c hr hc
    obtain ⟨f1, f2, f3⟩ := ihcell r c hr hc
    by_cases hpc : (r, c) = p
    · subst hpc
      have hsame := Grid.getCell_setCell_same hwf hr hc
        { g.getCell r c with has_mine := true }
      rw [hsame] at f1 f2 f3
      refine ⟨?_, ?_, ?_⟩
      · rw [f1]; simp
      · rw [f2]
      · rw [f3]
    · have hne : r ≠ p.1 ∨ c ≠ p.2 := by
        rcases p with ⟨p1, p2⟩
        by_cases h1 : r = p1 <;> by_cases h2 : c = p2 <;> simp_all
      have hother := Grid.getCell_setCell_other g hne
        { g.getCell p.1 p.2 with has_mine := true }
      rw [hother] at f1 f2 f3
      refine ⟨?_, f2, f3⟩
      rw [f1]
      have : ((r, c) ∈ p :: rest) ↔ ((r, c) ∈ rest) := by
        simp [List.mem_cons, hpc]
      simp [this]

theorem set_smc_fields (ms : List (Nat × Nat)) :
    ∀ g : Grid, g.Wf → (∀ p ∈ ms, p.1 < g.height ∧ p.2 < g.width) →
    (set_surrounding_mine_count g ms).width = g.width ∧
    (set_surrounding_mine_count g ms).height = g.height ∧
    (set_surrounding_mine_count g ms).hinted_cells = g.hinted_cells ∧
    (set_surrounding_mine_count g ms).Wf ∧
    ∀ r c, ((set_surrounding_mine_count g ms).getCell r c).has_mine
            = (g.getCell r c).has_mine ∧
        ((set_surrounding_mine_count g ms).getCell r c).is_open
            = (g.getCell r c).is_open := by
  induction ms with
  | nil =>
    intro g hwf _
    exact ⟨rfl, rfl, rfl, hwf, fun r c => ⟨rfl, rfl⟩⟩
  | cons p rest ih =>
    intro g hwf hms
    have hp := hms p (List.mem_cons_self _ _)
    have hunfold : set_surrounding_mine_count g (p :: rest)
        = set_surrounding_mine_count
            (g.setCell p.1 p.2
              { g.getCell p.1 p.2 with surrounding_mines_count := count_around g p.1 p.2 })
            rest := rfl
    obtain ⟨ihw, ihh, ihhint, ihwf, ihcell⟩ :=
      ih (g.setCell p.1 p.2
          { g.getCell p.1 p.2 with surrounding_mines_count := count_around g p.1 p.2 })
        (hwf.setCell _ _ _) (fun q hq => hms q (List.mem_cons_of_mem _ hq))
    rw [hunfold]
    refine ⟨ihw, ihh, ihhint, ihwf, ?_⟩
    intro r c
    obtain ⟨f1, f2⟩ := ihcell r c
    by_cases hpc : (r, c) = p
    · subst hpc
      have hsame := Grid.getCell_setCell_same hwf hp.1 hp.2
        { g.getCell r c with surrounding_mines_count := count_around g r c }
      rw [hsame] at f1 f2
      exact ⟨f1, f2⟩
    · have hne : r ≠ p.1 ∨ c ≠ p.2 := by
        rcases p with ⟨p1, p2⟩
        by_cases h1 : r = p1 <;> by_cases h2 : c = p2 <;> simp_all
      have hother := Grid.getCell_setCell_other g hne
        { g.getCell p.1 p.2 with surrounding_mines_count := count_around g p.1 p.2 }
      rw [hother] at f1 f2
      exact ⟨f1, f2⟩

theorem build_grid_fields (width height : Nat) (sample : List (Nat × Nat))
    (hin : ∀ p ∈ sample, p.1 < height ∧ p.2 < width) :
    (build_grid width height sample).width = width ∧
    (build_grid width height sample).height = height ∧
    (build_grid width height sample).hinted_cells = ∅ ∧
    (build_grid width height sample).Wf ∧
    ∀ r c, r < height → c < width →
      ((build_grid width height sample).getCell r c).has_mine
          = decide ((r, c) ∈ sample) ∧
      ((build_grid width height sample).getCell r c).is_open = false := by
  have h0wf := empty_grid_wf width height
  obtain ⟨pw, ph, phint, pwf, pcell⟩ :=
    place_mines_fields sample (empty_grid width height) h0wf hin
  have pw' : (place_mines (empty_grid width height) sample).width = width := pw
  have ph' : (place_mines (empty_grid width height) sample).height = height := ph
  have phint' : (place_mines (empty_grid width height) sample).hinted_cells = ∅ := phint
  have hnm : ∀ p ∈ (grid_coordinate_positions width height).filter
      (fun p => decide (p ∉ sample)),
      p.1 < (place_mines (empty_grid width height) sample).height ∧
      p.2 < (place_mines (empty_grid width height) sample).width := by
    intro p hp
    rw [List.mem_filter] at hp
    have h := (mem_grid_coordinate_positions width height p).mp hp.1
    rw [ph', pw']
    exact h
  obtain ⟨sw, sh, shint, swf, scell⟩ :=
    set_smc_fields _ (place_mines (empty_grid width height) sample) pwf hnm
  have hbuild : build_grid width height sample
      = set_surrounding_mine_count (place_mines (empty_grid width height) sample)
        ((grid_coordinate_positions width height).filter (fun p => decide (p ∉ sample))) := rfl
  rw [hbuild]
  refine ⟨by rw [sw, pw'], by rw [sh, ph'], by rw [shint, phint'], swf, ?_⟩
  intro r c hr hc
  obtain ⟨s1, s2⟩ := scell r c
  obtain ⟨p1, p2, p3⟩ := pcell r c hr hc
  constructor
  · rw [s1, p1, getCell_empty_grid _ _ _ _ hr hc]
    simp [Cell.default0]
  · rw [s2, p3, getCell_empty_grid _ _ _ _ hr hc]
    rfl

/-! ## C3: exact hazard count -/

/-- The list of mine-bearing coordinates of a grid (row-major). -/
def mine_cells (g : Grid) : List (Nat × Nat) :=
  (grid_coordinate_positions g.width g.height).filter
    (fun p => (g.getCell p.1 p.2).has_mine)

/-- C3: for every valid `(width, height, difficulty)`, construction places
exactly `max(floor(width*height*rate), floor_minimum)` hazards — rate/floor
`0.10`/1, `0.15`/2, `0.20`/3 for tiers 1/2/3 — and the hazard positions are
exactly the `random.sample` result: a duplicate-free subset of the
coordinates (the hypotheses on `sample` are precisely the `random.sample`
postconditions: distinct in-bounds positions, as many as requested). -/
theorem construction_hazard_count (width height difficulty : Nat)
    (sample : List (Nat × Nat)) (g : Grid)
    (hnodup : sample.Nodup)
    (hin : ∀ p ∈ sample, p.1 < height ∧ p.2 < width)
    (hlen : mine_count_for width height difficulty = some sample.length)
    (hok : grid_init width height difficulty sample = .ok g) :
    (mine_cells g).length
      = (if difficulty = 1 then max 1 (width * height * 10 / 100)
         else if difficulty = 2 then max 2 (width * height * 15 / 100)
         else max 3 (width * height * 20 / 100)) ∧
    (mine_cells g).Nodup ∧
    (∀ p, p ∈ mine_cells g ↔ p ∈ sample) := by
  have hg : g = build_grid width height sample := by
    have hinit : grid_init width height difficulty sample
        = (if sample.length ≤ width * height
            then Except.ok (build_grid width height sample)
            else Except.error PyError.valueError) := by
      rw [grid_init, hlen]
    rw [hinit] at hok
    split at hok
    · exact (Except.ok.inj hok).symm
    · exact absurd hok (by simp)
  subst hg
  obtain ⟨bw, bh, bhint, bwf, bcell⟩ := build_grid_fields width height sample hin
  have hmines : mine_cells (build_grid width height sample)
      = (grid_coordinate_positions width height).filter (fun p => decide (p ∈ sample)) := by
    rw [mine_cells, bw, bh]
    refine List.filter_congr ?_
    intro p hp
    obtain ⟨hp1, hp2⟩ := (mem_grid_coordinate_positions width height p).mp hp
    exact (bcell p.1 p.2 hp1 hp2).1
  have hsub : ∀ p ∈ sample, p ∈ grid_coordinate_positions width height := by
    intro p hp
    exact (mem_grid_coordinate_positions width height p).mpr (hin p hp)
  have hndfilter : ((grid_coordinate_positions width height).filter
      (fun p => decide (p ∈ sample))).Nodup :=
    (nodup_grid_coordinate_positions width height).filter _
  have hmem : ∀ p, p ∈ mine_cells (build_grid width height sample) ↔ p ∈ sample := by
    intro p
    rw [hmines, List.mem_filter]
    constructor
    · intro h
      simpa using h.2
    · intro h
      exact ⟨hsub p h, by simpa using h⟩
  refine ⟨?_, by rw [hmines]; exact hndfilter, hmem⟩
  have htofin : ((grid_coordinate_positions width height).filter
      (fun p => decide (p ∈ sample))).toFinset = sample.toFinset := by
    ext p
    simp only [List.mem_toFinset, List.mem_filter, decide_eq_true_eq]
    exact ⟨fun h => h.2, fun h => ⟨hsub p h, h⟩⟩
  have hlength : (mine_cells (build_grid width height sample)).length = sample.length := by
    rw [hmines, ← List.toFinset_card_of_nodup hndfilter, htofin,
      List.toFinset_card_of_nodup hnodup]
  rw [hlength]
  by_cases h1 : difficulty = 1
  · rw [if_pos h1]
    rw [mine_count_for, if_pos h1] at hlen
    exact (Option.some.inj hlen).symm
  · by_cases h2 : difficulty = 2
    · rw [if_neg h1, if_pos h2]
      rw [mine_count_for, if_neg h1, if_pos h2] at hlen
      exact (Option.some.inj hlen).symm
    · by_cases h3 : difficulty = 3
      · rw [if_neg h1, if_neg h2]
        rw [mine_count_for, if_neg h1, if_neg h2, if_pos h3] at hlen
        exact (Option.some.inj hlen).symm
      · rw [mine_count_for, if_neg h1, if_neg h2, if_neg h3] at hlen
        exact absurd hlen (by simp)

/-- Witness for C3: `Grid(3, 3, 2)` with sample `[(0,0), (2,2)]` has
exactly `max(2, int(9*0.15)) = 2` mines, at exactly those positions. -/
theorem construction_hazard_count_witness :
    (mine_cells (build_grid 3 3 [(0, 0), (2, 2)])).length
      = (if 2 = 1 then max 1 (3 * 3 * 10 / 100)
         else if 2 = 2 then max 2 (3 * 3 * 15 / 100)
         else max 3 (3 * 3 * 20 / 100)) ∧
    (mine_cells (build_grid 3 3 [(0, 0), (2, 2)])).Nodup ∧
    (∀ p, p ∈ mine_cells (build_grid 3 3 [(0, 0), (2, 2)]) ↔ p ∈ [(0, 0), (2, 2)]) :=
  construction_hazard_count 3 3 2 [(0, 0), (2, 2)] (build_grid 3 3 [(0, 0), (2, 2)])
    (by decide) (by decide) (by decide) (by rfl)

/-! ## C2: adjacency counts -/

theorem flatMap_ite_empty {α β : Type} (l : List α) (p : α → Bool) (f : α → List β) :
    (l.flatMap (fun a => if p a then f a else [])) = (l.filter p).flatMap f := by
  induction l with
  | nil => rfl
  | cons a rest ih =>
    rw [List.flatMap_cons, List.filter_cons]
    by_cases h : p a = true
    · rw [if_pos h, if_pos h, List.flatMap_cons, ih]
    · rw [if_neg h, if_neg h, ih]
      exact List.nil_append _

theorem filter_lt_range' (h : Nat) : ∀ (n s : Nat),
    (List.range' s n).filter (fun x => decide (x < h))
      = List.range' s (min h (s + n) - s) := by
  intro n
  induction n with
  | zero =>
    intro s
    have h0 : min h (s + 0) - s = 0 := by omega
    rw [h0]
    rfl
  | succ n ih =>
    intro s
    rw [List.range'_succ, List.filter_cons]
    by_cases hs : s < h
    · rw [if_pos (by simpa using hs), ih (s + 1)]
      have heq : min h (s + (n + 1)) - s = (min h (s + 1 + n) - (s + 1)) + 1 := by omega
      rw [heq, List.range'_succ]
    · rw [if_neg (by simpa using hs), ih (s + 1)]
      have h1 : min h (s + 1 + n) - (s + 1) = 0 := by omega
      have h2 : min h (s + (n + 1)) - s = 0 := by omega
      rw [h1, h2]
      rfl

theorem rangeFromTo_filter_lt (lo hi bound : Nat) (hlo : lo ≤ hi) :
    (rangeFromTo lo hi).filter (fun x => decide (x < bound))
      = rangeFromTo lo (min bound hi) := by
  rw [rangeFromTo, filter_lt_range', rangeFromTo]
  congr 1
  omega

/-- Restricting the 3×3 block to valid positions yields exactly the clamped
double range that `get_neighbours` enumerates (before removing the centre). -/
theorem surrounding_block_filter (g : Grid) (r c : Nat) :
    (surrounding_block r c).filter (fun p => is_valid_position g p.1 p.2)
      = (rangeFromTo (r - 1) (min g.height (r + 2))).flatMap
          (fun i => (rangeFromTo (c - 1) (min g.width (c + 2))).map (fun j => (i, j))) := by
  rw [surrounding_block, List.filter_flatMap]
  have hinner : ∀ i : Nat,
      ((rangeFromTo (c - 1) (c + 2)).map (fun j => (i, j))).filter
          (fun p => is_valid_position g p.1 p.2)
        = if decide (i < g.height) then
            ((rangeFromTo (c - 1) (min g.width (c + 2))).map (fun j => (i, j)))
          else [] := by
    intro i
    rw [List.filter_map]
    by_cases hi : i < g.height
    · rw [if_pos (by simpa using hi)]
      rw [← rangeFromTo_filter_lt (c - 1) (c + 2) g.width (by omega)]
      congr 1
      apply List.filter_congr
      intro j _
      simp [Function.comp, is_valid_position, hi]
    · rw [if_neg (by simpa using hi)]
      have hnil : (rangeFromTo (c - 1) (c + 2)).filter
          ((fun p => is_valid_position g p.1 p.2) ∘ (fun j => (i, j))) = [] := by
        rw [List.filter_eq_nil_iff]
        intro j _
        simp [Function.comp, is_valid_position, hi]
      rw [hnil]
      rfl
  calc (rangeFromTo (r - 1) (r + 2)).flatMap
        (fun i => ((rangeFromTo (c - 1) (c + 2)).map (fun j => (i, j))).filter
          (fun p => is_valid_position g p.1 p.2))
      = (rangeFromTo (r - 1) (r + 2)).flatMap
          (fun i => if decide (i < g.height) then
              ((rangeFromTo (c - 1) (min g.width (c + 2))).map (fun j => (i, j)))
            else []) := by
        simp only [hinner]
    _ = ((rangeFromTo (r - 1) (r + 2)).filter (fun i => decide (i < g.height))).flatMap
          (fun i => (rangeFromTo (c - 1) (min g.width (c + 2))).map (fun j => (i, j))) :=
        flatMap_ite_empty _ _ _
    _ = (rangeFromTo (r - 1) (min g.height (r + 2))).flatMap
          (fun i => (rangeFromTo (c - 1) (min g.width (c + 2))).map (fun j => (i, j))) := by
        rw [rangeFromTo_filter_lt (r - 1) (r + 2) g.height (by omega)]

/-- For a non-mine centre cell, the loop count of
`_set_surrounding_mine_count` equals the number of mines among the
`get_neighbours` cells (the centre, also enumerated by the loop, cannot
contribute since it has no mine). -/
theorem count_around_eq_neighbour_count (g : Grid) (r c : Nat)
    (hnomine : (g.getCell r c).has_mine = false) :
    count_around g r c
      = (get_neighbours g r c).countP (fun p => (g.getCell p.1 p.2).has_mine) := by
  have h1 : count_around g r c
      = ((surrounding_block r c).filter (fun p => is_valid_position g p.1 p.2)).countP
          (fun p => (g.getCell p.1 p.2).has_mine) := by
    rw [count_around, List.countP_filter]
    apply List.countP_congr
    intro p _
    cases hv : is_valid_position g p.1 p.2 <;>
      cases hm : (g.getCell p.1 p.2).has_mine <;> simp [hv, hm]
  have h2 : get_neighbours g r c
      = ((rangeFromTo (r - 1) (min g.height (r + 2))).flatMap
          (fun i => (rangeFromTo (c - 1) (min g.width (c + 2))).map
            (fun j => (i, j)))).filter (fun p => decide (p ≠ (r, c))) := by
    rw [get_neighbours]
    simp only [Nat.zero_max]
  rw [h1, surrounding_block_filter, h2, List.countP_filter]
  apply List.countP_congr
  intro p _
  by_cases hp : p = (r, c)
  · subst hp
    simp [hnomine]
  · simp [hp]

/-- `count_around` only reads the dimensions and `has_mine` fields. -/
theorem count_around_congr (g g' : Grid) (hw : g'.width = g.width)
    (hh : g'.height = g.height)
    (hmine : ∀ a b, (g'.getCell a b).has_mine = (g.getCell a b).has_mine)
    (r c : Nat) : count_around g' r c = count_around g r c := by
  rw [count_around, count_around]
  apply List.countP_congr
  intro p _
  simp [is_valid_position, hw, hh, hmine]

/-- A `setCell` that only changes `surrounding_mines_count` preserves every
`has_mine` field. -/
theorem setCell_count_preserves_mine {g : Grid} (hwf : g.Wf) {p : Nat × Nat}
    (hp : p.1 < g.height ∧ p.2 < g.width) (n : Nat) :
    ∀ a b, ((g.setCell p.1 p.2
        { g.getCell p.1 p.2 with surrounding_mines_count := n }).getCell a b).has_mine
      = (g.getCell a b).has_mine := by
  intro a b
  by_cases hab : (a, b) = p
  · have h1 : a = p.1 := by rw [← hab]
    have h2 : b = p.2 := by rw [← hab]
    subst h1; subst h2
    rw [Grid.getCell_setCell_same hwf hp.1 hp.2]
  · have hne : a ≠ p.1 ∨ b ≠ p.2 := by
      rcases p with ⟨p1, p2⟩
      by_cases h1 : a = p1 <;> by_cases h2 : b = p2 <;> simp_all
    rw [Grid.getCell_setCell_other g hne]

/-- Positions not in the processed list keep their
`surrounding_mines_count`. -/
theorem set_smc_count_untouched (ms : List (Nat × Nat)) :
    ∀ (g : Grid) (r c : Nat), (r, c) ∉ ms →
      ((set_surrounding_mine_count g ms).getCell r c).surrounding_mines_count
        = (g.getCell r c).surrounding_mines_count := by
  induction ms with
  | nil => intro g r c _; rfl
  | cons p rest ih =>
    intro g r c hnotin
    have hne : (r, c) ≠ p ∧ (r, c) ∉ rest := by
      rw [List.mem_cons] at hnotin
      push_neg at hnotin
      exact hnotin
    have hunfold : set_surrounding_mine_count g (p :: rest)
        = set_surrounding_mine_count
            (g.setCell p.1 p.2
              { g.getCell p.1 p.2 with surrounding_mines_count := count_around g p.1 p.2 })
            rest := rfl
    rw [hunfold, ih _ r c hne.2]
    have hcomp : r ≠ p.1 ∨ c ≠ p.2 := by
      rcases p with ⟨p1, p2⟩
      have := hne.1
      by_cases h1 : r = p1 <;> by_cases h2 : c = p2 <;> simp_all
    rw [Grid.getCell_setCell_other g hcomp]

/-- Every processed position receives the count computed against the
mine layout present when `_set_surrounding_mine_count` started (the fold
never changes a `has_mine` field, so intermediate reads agree with `g`). -/
theorem set_smc_count (ms : List (Nat × Nat)) :
    ∀ g : Grid, g.Wf → (∀ p ∈ ms, p.1 < g.height ∧ p.2 < g.width) →
    ∀ r c, (r, c) ∈ ms →
      ((set_surrounding_mine_count g ms).getCell r c).surrounding_mines_count
        = count_around g r c := by
  induction ms with
  | nil => intro g _ _ r c h; cases h
  | cons p rest ih =>
    intro g hwf hms r c hmem
    have hp := hms p (List.mem_cons_self _ _)
    have hunfold : set_surrounding_mine_count g (p :: rest)
        = set_surrounding_mine_count
            (g.setCell p.1 p.2
              { g.getCell p.1 p.2 with surrounding_mines_count := count_around g p.1 p.2 })
            rest := rfl
    have hminepres := setCell_count_preserves_mine hwf hp (count_around g p.1 p.2)
    rw [hunfold]
    by_cases hrest : (r, c) ∈ rest
    · rw [ih _ (hwf.setCell _ _ _)
        (fun q hq => hms q (List.mem_cons_of_mem _ hq)) r c hrest]
      exact count_around_congr g
        (g.setCell p.1 p.2
          { g.getCell p.1 p.2 with surrounding_mines_count := count_around g p.1 p.2 })
        rfl rfl hminepres r c
    · have hpc : (r, c) = p := by
        rcases List.mem_cons.mp hmem with h | h
        · exact h
        · exact absurd h hrest
      rw [set_smc_count_untouched rest _ r c hrest]
      have h1 : r = p.1 := by rw [← hpc]
      have h2 : c = p.2 := by rw [← hpc]
      subst h1; subst h2
      rw [Grid.getCell_setCell_same hwf hp.1 hp.2]

/-- Membership in `get_neighbours`: exactly the in-bounds cells at Chebyshev
distance 1 from the centre (edge-clamped, no wraparound). -/
theorem mem_get_neighbours (g : Grid) (row col : Nat) (q : Nat × Nat) :
    q ∈ get_neighbours g row col ↔
      (q ≠ (row, col) ∧ q.1 < g.height ∧ q.2 < g.width ∧
        row ≤ q.1 + 1 ∧ q.1 ≤ row + 1 ∧ col ≤ q.2 + 1 ∧ q.2 ≤ col + 1) := by
  cases q with
  | mk a b =>
    rw [get_neighbours]
    simp only [Nat.zero_max, List.mem_filter, List.mem_flatMap, List.mem_map,
      rangeFromTo, List.mem_range'_1, decide_eq_true_eq]
    constructor
    · rintro ⟨⟨i, hi, j, hj, hij⟩, hne⟩
      obtain ⟨rfl, rfl⟩ : i = a ∧ j = b := by
        have := Prod.mk.injEq i j a b ▸ hij
        exact Prod.mk.inj hij
      refine ⟨hne, ?_, ?_, ?_, ?_, ?_, ?_⟩ <;> omega
    · rintro ⟨hne, h1, h2, h3, h4, h5, h6⟩
      exact ⟨⟨a, by omega, ⟨b, by omega, rfl⟩⟩, hne⟩

/-- A successful `Grid(...)` construction yields exactly `build_grid`. -/
theorem grid_init_ok {width height difficulty : Nat} {sample : List (Nat × Nat)}
    {g : Grid} (hok : grid_init width height difficulty sample = .ok g) :
    g = build_grid width height sample := by
  rcases hmc : mine_count_for width height difficulty with _ | mc
  · have hinit : grid_init width height difficulty sample
        = .error .attributeError := by
      rw [grid_init, hmc]
    rw [hinit] at hok
    exact absurd hok (by simp)
  · have hinit : grid_init width height difficulty sample
        = (if mc ≤ width * height then Except.ok (build_grid width height sample)
           else Except.error PyError.valueError) := by
      rw [grid_init, hmc]
    rw [hinit] at hok
    split at hok
    · exact (Except.ok.inj hok).symm
    · exact absurd hok (by simp)

/-- C2: after construction with valid parameters, every non-mine in-bounds
cell stores as `surrounding_mines_count` exactly the number of its
`get_neighbours` cells carrying a mine; and `get_neighbours` enumerates
exactly the ≤ 8 orthogonal/diagonal in-bounds neighbours (edge-clamped, no
wraparound).  The sample hypotheses are the `random.sample`
postconditions. -/
theorem construction_adjacency_counts (width height difficulty : Nat)
    (sample : List (Nat × Nat)) (g : Grid)
    (hw : 2 ≤ width) (hh : 2 ≤ height)
    (hd : difficulty = 1 ∨ difficulty = 2 ∨ difficulty = 3)
    (hin : ∀ p ∈ sample, p.1 < height ∧ p.2 < width)
    (hok : grid_init width height difficulty sample = .ok g) :
    ∀ r c, r < height → c < width → (g.getCell r c).has_mine = false →
      (g.getCell r c).surrounding_mines_count
        = (get_neighbours g r c).countP (fun p => (g.getCell p.1 p.2).has_mine) ∧
      (∀ q, q ∈ get_neighbours g r c ↔
        (q ≠ (r, c) ∧ q.1 < height ∧ q.2 < width ∧
          r ≤ q.1 + 1 ∧ q.1 ≤ r + 1 ∧ c ≤ q.2 + 1 ∧ q.2 ≤ c + 1)) := by
  have hg := grid_init_ok hok
  subst hg
  obtain ⟨bw, bh, bhint, bwf, bcell⟩ := build_grid_fields width height sample hin
  intro r c hr hc hnomine
  constructor
  · obtain ⟨pw, ph, phint, pwf, pcell⟩ :=
      place_mines_fields sample (empty_grid width height) (empty_grid_wf _ _) hin
    have hnotin : (r, c) ∉ sample := by
      have hb := (bcell r c hr hc).1
      rw [hnomine] at hb
      simpa using hb.symm
    have hmemnm : (r, c) ∈ (grid_coordinate_positions width height).filter
        (fun p => decide (p ∉ sample)) := by
      rw [List.mem_filter]
      exact ⟨(mem_grid_coordinate_positions width height (r, c)).mpr ⟨hr, hc⟩,
        by simpa using hnotin⟩
    have hnmbounds : ∀ p ∈ (grid_coordinate_positions width height).filter
        (fun p => decide (p ∉ sample)),
        p.1 < (place_mines (empty_grid width height) sample).height ∧
        p.2 < (place_mines (empty_grid width height) sample).width := by
      intro p hp
      rw [List.mem_filter] at hp
      have h := (mem_grid_coordinate_positions width height p).mp hp.1
      exact ⟨by rw [ph]; exact h.1, by rw [pw]; exact h.2⟩
    obtain ⟨sw, sh, shint, swf, scell⟩ :=
      set_smc_fields _ (place_mines (empty_grid width height) sample) pwf hnmbounds
    have hbuild : build_grid width height sample
        = set_surrounding_mine_count (place_mines (empty_grid width height) sample)
          ((grid_coordinate_positions width height).filter
            (fun p => decide (p ∉ sample))) := rfl
    have hcount1 := set_smc_count _ (place_mines (empty_grid width height) sample)
      pwf hnmbounds r c hmemnm
    have hca : count_around
        (set_surrounding_mine_count (place_mines (empty_grid width height) sample)
          ((grid_coordinate_positions width height).filter
            (fun p => decide (p ∉ sample)))) r c
        = count_around (place_mines (empty_grid width height) sample) r c :=
      count_around_congr _ _ sw sh (fun a b => (scell a b).1) r c
    rw [hbuild] at hnomine ⊢
    rw [hcount1, ← hca]
    exact count_around_eq_neighbour_count _ r c hnomine
  · intro q
    rw [mem_get_neighbours, bh, bw]

/-- Witness for C2 on the spec's own example: difficulty-2 construction of
a 3×3 grid with mines at (0,0) and (2,2); cell (1,1) has count 2 and the
general theorem instantiates at it. -/
theorem construction_adjacency_counts_witness :
    (((build_grid 3 3 [(0, 0), (2, 2)]).getCell 1 1).surrounding_mines_count
        = (get_neighbours (build_grid 3 3 [(0, 0), (2, 2)]) 1 1).countP
            (fun p => ((build_grid 3 3 [(0, 0), (2, 2)]).getCell p.1 p.2).has_mine) ∧
      (∀ q, q ∈ get_neighbours (build_grid 3 3 [(0, 0), (2, 2)]) 1 1 ↔
        (q ≠ (1, 1) ∧ q.1 < 3 ∧ q.2 < 3 ∧
          1 ≤ q.1 + 1 ∧ q.1 ≤ 1 + 1 ∧ 1 ≤ q.2 + 1 ∧ q.2 ≤ 1 + 1))) ∧
    ((build_grid 3 3 [(0, 0), (2, 2)]).getCell 1 1).surrounding_mines_count = 2 :=
  ⟨construction_adjacency_counts 3 3 2 [(0, 0), (2, 2)]
      (build_grid 3 3 [(0, 0), (2, 2)]) (by decide) (by decide) (by decide)
      (by decide) (by rfl) 1 1 (by decide) (by decide) (by decide),
   by decide⟩

/-! ## The hint search: basic invariants -/

theorem backtrack_search_zero (g : Grid) (row col : Nat) (V : Finset (Nat × Nat)) :
    backtrack_search g 0 row col V = (none, V) := rfl

theorem backtrack_search_succ (g : Grid) (fuel row col : Nat) (V : Finset (Nat × Nat)) :
    backtrack_search g (fuel + 1) row col V
      = if fully_safe g row col then (some (row, col), insert (row, col) V)
        else search_neighbours g fuel (get_neighbours g row col) (insert (row, col) V) := rfl

theorem search_neighbours_nil (g : Grid) (fuel : Nat) (V : Finset (Nat × Nat)) :
    search_neighbours g fuel [] V = (none, V) := rfl

theorem search_neighbours_cons (g : Grid) (fuel : Nat) (p : Nat × Nat)
    (rest : List (Nat × Nat)) (V : Finset (Nat × Nat)) :
    search_neighbours g fuel (p :: rest) V
      = if p ∈ V then search_neighbours g fuel rest V
        else match backtrack_search g fuel p.1 p.2 V with
          | (some res, visited') => (some res, visited')
          | (none, visited') => search_neighbours g fuel rest visited' := rfl

/-- The in-bounds coordinates, as a finite set. -/
def board_coords (g : Grid) : Finset (Nat × Nat) :=
  Finset.range g.height ×ˢ Finset.range g.width

theorem mem_board_coords (g : Grid) (p : Nat × Nat) :
    p ∈ board_coords g ↔ p.1 < g.height ∧ p.2 < g.width := by
  cases p with
  | mk a b => simp [board_coords, Finset.mem_product]

theorem card_board_coords (g : Grid) :
    (board_coords g).card = g.height * g.width := by
  simp [board_coords]

theorem get_neighbours_subset_coords (g : Grid) (row col : Nat) :
    ∀ q ∈ get_neighbours g row col, q ∈ board_coords g := by
  intro q hq
  obtain ⟨_, h1, h2, _⟩ := (mem_get_neighbours g row col q).mp hq
  exact (mem_board_coords g q).mpr ⟨h1, h2⟩

theorem search_neighbours_subset_of (g : Grid) (fuel : Nat)
    (hdfs : ∀ row col V, V ⊆ (backtrack_search g fuel row col V).2) :
    ∀ ps V, V ⊆ (search_neighbours g fuel ps V).2 := by
  intro ps
  induction ps with
  | nil =>
    intro V
    rw [search_neighbours_nil]
  | cons p rest ih =>
    intro V
    rw [search_neighbours_cons]
    by_cases hv : p ∈ V
    · rw [if_pos hv]
      exact ih V
    · rw [if_neg hv]
      rcases hbs : backtrack_search g fuel p.1 p.2 V with ⟨res, V'⟩
      have hVV' : V ⊆ V' := by
        have := hdfs p.1 p.2 V
        rw [hbs] at this
        exact this
      cases res with
      | some x => exact hVV'
      | none => exact hVV'.trans (ih V')

theorem backtrack_search_subset (g : Grid) :
    ∀ fuel row col V, V ⊆ (backtrack_search g fuel row col V).2 := by
  intro fuel
  induction fuel with
  | zero =>
    intro row col V
    rw [backtrack_search_zero]
  | succ fuel ih =>
    intro row col V
    rw [backtrack_search_succ]
    by_cases hs : fully_safe g row col = true
    · rw [if_pos hs]
      exact Finset.subset_insert _ _
    · rw [if_neg hs]
      exact (Finset.subset_insert _ _).trans
        (search_neighbours_subset_of g fuel ih (get_neighbours g row col) _)

/-- With at least one unit of fuel the search records its start cell. -/
theorem backtrack_search_insert_subset (g : Grid) (fuel row col : Nat)
    (V : Finset (Nat × Nat)) (hfuel : 1 ≤ fuel) :
    insert (row, col) V ⊆ (backtrack_search g fuel row col V).2 := by
  obtain ⟨f, rfl⟩ : ∃ f, fuel = f + 1 := ⟨fuel - 1, by omega⟩
  rw [backtrack_search_succ]
  by_cases hs : fully_safe g row col = true
  · rw [if_pos hs]
  · rw [if_neg hs]
    exact search_neighbours_subset_of g f (backtrack_search_subset g f) _ _

theorem search_neighbours_bound_of (g : Grid) (fuel : Nat)
    (hdfs : ∀ row col V, (row, col) ∈ board_coords g → V ⊆ board_coords g →
      (backtrack_search g fuel row col V).2 ⊆ board_coords g) :
    ∀ ps V, (∀ p ∈ ps, p ∈ board_coords g) → V ⊆ board_coords g →
      (search_neighbours g fuel ps V).2 ⊆ board_coords g := by
  intro ps
  induction ps with
  | nil =>
    intro V _ hV
    rw [search_neighbours_nil]
    exact hV
  | cons p rest ih =>
    intro V hps hV
    have hp : p ∈ board_coords g := hps p (List.mem_cons_self _ _)
    have hrest : ∀ q ∈ rest, q ∈ board_coords g :=
      fun q hq => hps q (List.mem_cons_of_mem _ hq)
    rw [search_neighbours_cons]
    by_cases hv : p ∈ V
    · rw [if_pos hv]
      exact ih V hrest hV
    · rw [if_neg hv]
      rcases hbs : backtrack_search g fuel p.1 p.2 V with ⟨res, V'⟩
      have hV' : V' ⊆ board_coords g := by
        have := hdfs p.1 p.2 V (by rwa [Prod.mk.eta]) hV
        rw [hbs] at this
        exact this
      cases res with
      | some x => exact hV'
      | none => exact ih V' hrest hV'

theorem backtrack_search_bound (g : Grid) :
    ∀ fuel row col V, (row, col) ∈ board_coords g → V ⊆ board_coords g →
      (backtrack_search g fuel row col V).2 ⊆ board_coords g := by
  intro fuel
  induction fuel with
  | zero =>
    intro row col V _ hV
    rw [backtrack_search_zero]
    exact hV
  | succ fuel ih =>
    intro row col V hmem hV
    have hins : insert (row, col) V ⊆ board_coords g :=
      Finset.insert_subset hmem hV
    rw [backtrack_search_succ]
    by_cases hs : fully_safe g row col = true
    · rw [if_pos hs]
      exact hins
    · rw [if_neg hs]
      exact search_neighbours_bound_of g fuel ih (get_neighbours g row col) _
        (get_neighbours_subset_coords g row col) hins

theorem search_neighbours_sound_of (g : Grid) (fuel : Nat)
    (hdfs : ∀ row col V x V', (row, col) ∈ board_coords g →
      backtrack_search g fuel row col V = (some x, V') →
      fully_safe g x.1 x.2 = true ∧ x ∈ board_coords g) :
    ∀ ps V x V', (∀ p ∈ ps, p ∈ board_coords g) →
      search_neighbours g fuel ps V = (some x, V') →
      fully_safe g x.1 x.2 = true ∧ x ∈ board_coords g := by
  intro ps
  induction ps with
  | nil =>
    intro V x V' _ h
    rw [search_neighbours_nil] at h
    exact absurd h (by simp)
  | cons p rest ih =>
    intro V x V' hps h
    have hp : p ∈ board_coords g := hps p (List.mem_cons_self _ _)
    have hrest : ∀ q ∈ rest, q ∈ board_coords g :=
      fun q hq => hps q (List.mem_cons_of_mem _ hq)
    rw [search_neighbours_cons] at h
    by_cases hv : p ∈ V
    · rw [if_pos hv] at h
      exact ih V x V' hrest h
    · rw [if_neg hv] at h
      rcases hbs : backtrack_search g fuel p.1 p.2 V with ⟨res, V''⟩
      rw [hbs] at h
      cases res with
      | some y =>
        simp only at h
        obtain ⟨hy, hV⟩ := Prod.mk.inj h
        obtain rfl : y = x := Option.some.inj hy
        exact hdfs p.1 p.2 V y V'' (by rwa [Prod.mk.eta]) hbs
      | none =>
        simp only at h
        exact ih V'' x V' hrest h

theorem backtrack_search_sound (g : Grid) :
    ∀ fuel row col V x V', (row, col) ∈ board_coords g →
      backtrack_search g fuel row col V = (some x, V') →
      fully_safe g x.1 x.2 = true ∧ x ∈ board_coords g := by
  intro fuel
  induction fuel with
  | zero =>
    intro row col V x V' _ h
    rw [backtrack_search_zero] at h
    exact absurd h (by simp)
  | succ fuel ih =>
    intro row col V x V' hmem h
    rw [backtrack_search_succ] at h
    by_cases hs : fully_safe g row col = true
    · rw [if_pos hs] at h
      obtain ⟨hx, hV⟩ := Prod.mk.inj h
      obtain rfl : x = (row, col) := (Option.some.inj hx).symm
      exact ⟨hs, hmem⟩
    · rw [if_neg hs] at h
      exact search_neighbours_sound_of g fuel ih (get_neighbours g row col) _ x V'
        (get_neighbours_subset_coords g row col) h

/-! ## Fuel stability: the recursion depth is bounded by the grid size -/

theorem search_neighbours_fuel_stable_of (g : Grid) (n : Nat)
    (ih : ∀ fuel fuel' row col (V : Finset (Nat × Nat)),
      (row, col) ∈ board_coords g → (row, col) ∉ V → V ⊆ board_coords g →
      (board_coords g).card - V.card ≤ n →
      (board_coords g).card - V.card ≤ fuel →
      (board_coords g).card - V.card ≤ fuel' →
      backtrack_search g fuel row col V = backtrack_search g fuel' row col V) :
    ∀ ps (V : Finset (Nat × Nat)) fuel fuel',
      (∀ p ∈ ps, p ∈ board_coords g) → V ⊆ board_coords g →
      (board_coords g).card - V.card ≤ n →
      (board_coords g).card - V.card ≤ fuel →
      (board_coords g).card - V.card ≤ fuel' →
      search_neighbours g fuel ps V = search_neighbours g fuel' ps V := by
  intro ps
  induction ps with
  | nil =>
    intro V fuel fuel' _ _ _ _ _
    rw [search_neighbours_nil, search_neighbours_nil]
  | cons p rest ihl =>
    intro V fuel fuel' hps hV hn hf hf'
    have hp := hps p (List.mem_cons_self _ _)
    have hrest := fun q hq => hps q (List.mem_cons_of_mem _ hq)
    rw [search_neighbours_cons, search_neighbours_cons]
    by_cases hv : p ∈ V
    · rw [if_pos hv, if_pos hv]
      exact ihl V fuel fuel' hrest hV hn hf hf'
    · rw [if_neg hv, if_neg hv]
      have hd : backtrack_search g fuel p.1 p.2 V
          = backtrack_search g fuel' p.1 p.2 V :=
        ih fuel fuel' p.1 p.2 V (by rwa [Prod.mk.eta]) (by rwa [Prod.mk.eta]) hV hn hf hf'
      rw [hd]
      rcases hbs : backtrack_search g fuel' p.1 p.2 V with ⟨res, V''⟩
      cases res with
      | some x => rfl
      | none =>
        simp only
        have hlt : V.card < (board_coords g).card :=
          Finset.card_lt_card (Finset.ssubset_iff_subset_ne.mpr
            ⟨hV, fun heq => hv (by rw [heq]; exact hp)⟩)
        have hins : insert p V ⊆ V'' := by
          have h := backtrack_search_insert_subset g fuel' p.1 p.2 V (by omega)
          rw [hbs] at h
          rwa [Prod.mk.eta] at h
        have hV'' : V'' ⊆ board_coords g := by
          have h := backtrack_search_bound g fuel' p.1 p.2 V (by rwa [Prod.mk.eta]) hV
          rw [hbs] at h
          exact h
        have hcard : V.card < V''.card := by
          have h1 : (insert p V).card = V.card + 1 := Finset.card_insert_of_not_mem hv
          have h2 : (insert p V).card ≤ V''.card := Finset.card_le_card hins
          omega
        exact ihl V'' fuel fuel' hrest hV'' (by omega) (by omega) (by omega)

theorem backtrack_search_fuel_stable (g : Grid) : ∀ n : Nat,
    ∀ fuel fuel' row col (V : Finset (Nat × Nat)),
      (row, col) ∈ board_coords g → (row, col) ∉ V → V ⊆ board_coords g →
      (board_coords g).card - V.card ≤ n →
      (board_coords g).card - V.card ≤ fuel →
      (board_coords g).card - V.card ≤ fuel' →
      backtrack_search g fuel row col V = backtrack_search g fuel' row col V := by
  intro n
  induction n with
  | zero =>
    intro fuel fuel' row col V hmem hnot hsub hn _ _
    have hlt : V.card < (board_coords g).card :=
      Finset.card_lt_card (Finset.ssubset_iff_subset_ne.mpr
        ⟨hsub, fun heq => hnot (by rw [heq]; exact hmem)⟩)
    omega
  | succ n ih =>
    intro fuel fuel' row col V hmem hnot hsub hn hf hf'
    have hlt : V.card < (board_coords g).card :=
      Finset.card_lt_card (Finset.ssubset_iff_subset_ne.mpr
        ⟨hsub, fun heq => hnot (by rw [heq]; exact hmem)⟩)
    obtain ⟨f, rfl⟩ : ∃ f, fuel = f + 1 := ⟨fuel - 1, by omega⟩
    obtain ⟨f', rfl⟩ : ∃ k, fuel' = k + 1 := ⟨fuel' - 1, by omega⟩
    rw [backtrack_search_succ, backtrack_search_succ]
    by_cases hs : fully_safe g row col = true
    · rw [if_pos hs, if_pos hs]
    · rw [if_neg hs, if_neg hs]
      have hins : insert (row, col) V ⊆ board_coords g :=
        Finset.insert_subset hmem hsub
      have hcard : (insert (row, col) V).card = V.card + 1 :=
        Finset.card_insert_of_not_mem hnot
      exact search_neighbours_fuel_stable_of g n ih (get_neighbours g row col)
        (insert (row, col) V) f f' (get_neighbours_subset_coords g row col) hins
        (by omega) (by omega) (by omega)

/-! ## Closure: a failed search has visited a neighbour-closed set of
non-qualifying cells -/

theorem search_neighbours_closure_of (g : Grid) (n : Nat)
    (ih : ∀ fuel row col (V V' : Finset (Nat × Nat)),
      (row, col) ∈ board_coords g → (row, col) ∉ V → V ⊆ board_coords g →
      (board_coords g).card - V.card ≤ n →
      (board_coords g).card - V.card ≤ fuel →
      backtrack_search g fuel row col V = (none, V') →
      insert (row, col) V ⊆ V' ∧
      ∀ x ∈ V', x ∉ V → fully_safe g x.1 x.2 = false ∧
        ∀ q ∈ get_neighbours g x.1 x.2, q ∈ V') :
    ∀ ps (V V' : Finset (Nat × Nat)) fuel,
      (∀ p ∈ ps, p ∈ board_coords g) → V ⊆ board_coords g →
      (board_coords g).card - V.card ≤ n →
      (board_coords g).card - V.card ≤ fuel →
      search_neighbours g fuel ps V = (none, V') →
      V ⊆ V' ∧ (∀ p ∈ ps, p ∈ V') ∧
      (∀ x ∈ V', x ∉ V → fully_safe g x.1 x.2 = false ∧
        ∀ q ∈ get_neighbours g x.1 x.2, q ∈ V') := by
  intro ps
  induction ps with
  | nil =>
    intro V V' fuel _ _ _ _ h
    rw [search_neighbours_nil] at h
    obtain ⟨-, rfl⟩ := Prod.mk.inj h
    exact ⟨fun x hx => hx, fun p hp => absurd hp (List.not_mem_nil p),
      fun x hx hxV => absurd hx hxV⟩
  | cons p rest ihl =>
    intro V V' fuel hps hV hn hf h
    have hp := hps p (List.mem_cons_self _ _)
    have hrest := fun q hq => hps q (List.mem_cons_of_mem _ hq)
    rw [search_neighbours_cons] at h
    by_cases hv : p ∈ V
    · rw [if_pos hv] at h
      obtain ⟨hsub, hmem, hclo⟩ := ihl V V' fuel hrest hV hn hf h
      refine ⟨hsub, ?_, hclo⟩
      intro q hq
      rcases List.mem_cons.mp hq with rfl | hq'
      · exact hsub hv
      · exact hmem q hq'
    · rw [if_neg hv] at h
      rcases hbs : backtrack_search g fuel p.1 p.2 V with ⟨res, V''⟩
      rw [hbs] at h
      cases res with
      | some x => exact absurd h (by simp)
      | none =>
        simp only at h
        have hlt : V.card < (board_coords g).card :=
          Finset.card_lt_card (Finset.ssubset_iff_subset_ne.mpr
            ⟨hV, fun heq => hv (by rw [heq]; exact hp)⟩)
        obtain ⟨hins, hclo1⟩ := ih fuel p.1 p.2 V V'' (by rwa [Prod.mk.eta])
          (by rwa [Prod.mk.eta]) hV hn hf hbs
        rw [Prod.mk.eta] at hins
        have hV'' : V'' ⊆ board_coords g := by
          have hb := backtrack_search_bound g fuel p.1 p.2 V (by rwa [Prod.mk.eta]) hV
          rw [hbs] at hb
          exact hb
        have hcard : V.card < V''.card := by
          have h1 : (insert p V).card = V.card + 1 := Finset.card_insert_of_not_mem hv
          have h2 : (insert p V).card ≤ V''.card := Finset.card_le_card hins
          omega
        obtain ⟨hsub2, hmem2, hclo2⟩ := ihl V'' V' fuel hrest hV'' (by omega) (by omega) h
        have hVV' : V ⊆ V' := ((Finset.subset_insert _ _).trans hins).trans hsub2
        refine ⟨hVV', ?_, ?_⟩
        · intro q hq
          rcases List.mem_cons.mp hq with rfl | hq'
          · exact hsub2 (hins (Finset.mem_insert_self _ _))
          · exact hmem2 q hq'
        · intro x hx hxV
          by_cases hx'' : x ∈ V''
          · obtain ⟨hfail, hnb⟩ := hclo1 x hx'' hxV
            exact ⟨hfail, fun q hq => hsub2 (hnb q hq)⟩
          · exact hclo2 x hx hx''

theorem backtrack_search_closure (g : Grid) : ∀ n : Nat,
    ∀ fuel row col (V V' : Finset (Nat × Nat)),
      (row, col) ∈ board_coords g → (row, col) ∉ V → V ⊆ board_coords g →
      (board_coords g).card - V.card ≤ n →
      (board_coords g).card - V.card ≤ fuel →
      backtrack_search g fuel row col V = (none, V') →
      insert (row, col) V ⊆ V' ∧
      ∀ x ∈ V', x ∉ V → fully_safe g x.1 x.2 = false ∧
        ∀ q ∈ get_neighbours g x.1 x.2, q ∈ V' := by
  intro n
  induction n with
  | zero =>
    intro fuel row col V V' hmem hnot hsub hn _ _
    have hlt : V.card < (board_coords g).card :=
      Finset.card_lt_card (Finset.ssubset_iff_subset_ne.mpr
        ⟨hsub, fun heq => hnot (by rw [heq]; exact hmem)⟩)
    omega
  | succ n ih =>
    intro fuel row col V V' hmem hnot hsub hn hf hnone
    have hlt : V.card < (board_coords g).card :=
      Finset.card_lt_card (Finset.ssubset_iff_subset_ne.mpr
        ⟨hsub, fun heq => hnot (by rw [heq]; exact hmem)⟩)
    obtain ⟨f, rfl⟩ : ∃ f, fuel = f + 1 := ⟨fuel - 1, by omega⟩
    rw [backtrack_search_succ] at hnone
    by_cases hs : fully_safe g row col = true
    · rw [if_pos hs] at hnone
      exact absurd hnone (by simp)
    · rw [if_neg hs] at hnone
      have hins : insert (row, col) V ⊆ board_coords g :=
        Finset.insert_subset hmem hsub
      have hcard : (insert (row, col) V).card = V.card + 1 :=
        Finset.card_insert_of_not_mem hnot
      obtain ⟨hsub2, hmem2, hclo2⟩ := search_neighbours_closure_of g n ih
        (get_neighbours g row col) (insert (row, col) V) V' f
        (get_neighbours_subset_coords g row col) hins (by omega) (by omega) hnone
      refine ⟨hsub2, ?_⟩
      intro x hx hxV
      by_cases hxc : x = (row, col)
      · subst hxc
        have hs' : fully_safe g row col = false := by
          cases hfs : fully_safe g row col
          · rfl
          · exact absurd hfs hs
        exact ⟨hs', fun q hq => hmem2 q hq⟩
      · have hxins : x ∉ insert (row, col) V := by
          rw [Finset.mem_insert]
          push_neg
          exact ⟨hxc, hxV⟩
        obtain ⟨hfail, hnb⟩ := hclo2 x hx hxins
        exact ⟨hfail, hnb⟩

/-! ## Connectivity: a neighbour-closed set containing one cell contains the
whole grid -/

theorem closed_set_covers (g : Grid) (V : Finset (Nat × Nat))
    (hclosed : ∀ x ∈ V, ∀ q ∈ get_neighbours g x.1 x.2, q ∈ V) :
    ∀ d : Nat, ∀ s1 s2 p1 p2 : Nat, (s1, s2) ∈ V →
      s1 < g.height → s2 < g.width → p1 < g.height → p2 < g.width →
      (s1 - p1) + (p1 - s1) + (s2 - p2) + (p2 - s2) ≤ d → (p1, p2) ∈ V := by
  intro d
  induction d with
  | zero =>
    intro s1 s2 p1 p2 hs _ _ _ _ hd
    have h1 : p1 = s1 := by omega
    have h2 : p2 = s2 := by omega
    rw [h1, h2]
    exact hs
  | succ d ih =>
    intro s1 s2 p1 p2 hs hs1 hs2 hp1 hp2 hd
    by_cases h1 : s1 < p1
    · have hnb : (s1 + 1, s2) ∈ get_neighbours g s1 s2 := by
        rw [mem_get_neighbours]
        refine ⟨?_, by omega, hs2, by omega, by omega, by omega, by omega⟩
        simp only [Ne, Prod.mk.injEq, not_and]
        intro hcon
        omega
      exact ih (s1 + 1) s2 p1 p2 (hclosed (s1, s2) hs _ hnb) (by omega) hs2 hp1 hp2
        (by omega)
    · by_cases h2 : p1 < s1
      · have hnb : (s1 - 1, s2) ∈ get_neighbours g s1 s2 := by
          rw [mem_get_neighbours]
          refine ⟨?_, by omega, hs2, by omega, by omega, by omega, by omega⟩
          simp only [Ne, Prod.mk.injEq, not_and]
          intro hcon
          omega
        exact ih (s1 - 1) s2 p1 p2 (hclosed (s1, s2) hs _ hnb) (by omega) hs2 hp1 hp2
          (by omega)
      · by_cases h3 : s2 < p2
        · have hnb : (s1, s2 + 1) ∈ get_neighbours g s1 s2 := by
            rw [mem_get_neighbours]
            refine ⟨?_, hs1, by omega, by omega, by omega, by omega, by omega⟩
            simp only [Ne, Prod.mk.injEq, not_and]
            intro hcon
            omega
          exact ih s1 (s2 + 1) p1 p2 (hclosed (s1, s2) hs _ hnb) hs1 (by omega) hp1 hp2
            (by omega)
        · by_cases h4 : p2 < s2
          · have hnb : (s1, s2 - 1) ∈ get_neighbours g s1 s2 := by
              rw [mem_get_neighbours]
              refine ⟨?_, hs1, by omega, by omega, by omega, by omega, by omega⟩
              simp only [Ne, Prod.mk.injEq, not_and]
              intro hcon
              omega
            exact ih s1 (s2 - 1) p1 p2 (hclosed (s1, s2) hs _ hnb) hs1 (by omega) hp1 hp2
              (by omega)
          · have he1 : p1 = s1 := by omega
            have he2 : p2 = s2 := by omega
            rw [he1, he2]
            exact hs

/-! ## The hint scan and `Grid.hint` -/

theorem hintable_iff (g : Grid) (r c : Nat) :
    hintable g r c = true ↔
      ((r, c) ∉ g.hinted_cells ∧ (g.getCell r c).is_open = false ∧
        (g.getCell r c).has_mine = false) := by
  rw [hintable]
  simp [Bool.and_eq_true, Bool.not_eq_true', and_assoc]

theorem fully_safe_iff (g : Grid) (r c : Nat) :
    fully_safe g r c = true ↔
      ((r, c) ∉ g.hinted_cells ∧ (g.getCell r c).is_open = false ∧
        (g.getCell r c).has_mine = false ∧
        (g.getCell r c).surrounding_mines_count = 0) := by
  rw [fully_safe, Bool.and_eq_true, hintable_iff]
  simp [and_assoc]

theorem hint_scan_sound (g : Grid) : ∀ l : List (Nat × Nat),
    (∀ p ∈ l, p ∈ board_coords g) → ∀ x, hint_scan g l = some x →
    fully_safe g x.1 x.2 = true ∧ x ∈ board_coords g := by
  intro l
  induction l with
  | nil =>
    intro _ x h
    rw [hint_scan] at h
    exact absurd h (by simp)
  | cons p rest ih =>
    intro hl x h
    obtain ⟨r, c⟩ := p
    rw [hint_scan] at h
    by_cases hh : hintable g r c = true
    · rw [if_pos hh] at h
      rcases hbs : backtrack_search g (g.width * g.height) r c ∅ with ⟨res, V'⟩
      rw [hbs] at h
      cases res with
      | some y =>
        simp only at h
        obtain rfl : y = x := Option.some.inj h
        exact backtrack_search_sound g _ r c ∅ y V'
          (hl (r, c) (List.mem_cons_self _ _)) hbs
      | none =>
        simp only at h
        exact ih (fun q hq => hl q (List.mem_cons_of_mem _ hq)) x h
    · rw [if_neg hh] at h
      exact ih (fun q hq => hl q (List.mem_cons_of_mem _ hq)) x h

theorem hint_scan_none (g : Grid) : ∀ l : List (Nat × Nat),
    hint_scan g l = none → ∀ p ∈ l, hintable g p.1 p.2 = true →
    (backtrack_search g (g.width * g.height) p.1 p.2 ∅).1 = none := by
  intro l
  induction l with
  | nil =>
    intro _ p hp
    exact absurd hp (List.not_mem_nil p)
  | cons q rest ih =>
    intro h p hp hhint
    obtain ⟨r, c⟩ := q
    rw [hint_scan] at h
    rcases List.mem_cons.mp hp with rfl | hp'
    · rw [if_pos hhint] at h
      rcases hbs : backtrack_search g (g.width * g.height) r c ∅ with ⟨res, V'⟩
      rw [hbs] at h
      cases res with
      | some y => exact absurd h (by simp)
      | none => rfl
    · by_cases hh : hintable g r c = true
      · rw [if_pos hh] at h
        rcases hbs : backtrack_search g (g.width * g.height) r c ∅ with ⟨res, V'⟩
        rw [hbs] at h
        cases res with
        | some y => exact absurd h (by simp)
        | none => exact ih h p hp' hhint
      · rw [if_neg hh] at h
        exact ih h p hp' hhint

theorem hint_eq_some {g : Grid} {x : Nat × Nat} {g' : Grid}
    (h : Grid.hint g = (some x, g')) :
    hint_scan g (grid_coordinate_positions g.width g.height) = some x ∧
    g' = { g with hinted_cells := insert x g.hinted_cells } := by
  rw [Grid.hint] at h
  rcases hscan : hint_scan g (grid_coordinate_positions g.width g.height) with _ | y
  · rw [hscan] at h
    exact absurd h (by simp)
  · rw [hscan] at h
    simp only at h
    obtain ⟨h1, h2⟩ := Prod.mk.inj h
    obtain rfl : y = x := Option.some.inj h1
    exact ⟨rfl, h2.symm⟩

theorem coords_subset_board (g : Grid) :
    ∀ p ∈ grid_coordinate_positions g.width g.height, p ∈ board_coords g := by
  intro p hp
  exact (mem_board_coords g p).mpr
    ((mem_grid_coordinate_positions g.width g.height p).mp hp)

/-! ## C1: hints are fresh, unrevealed, safe, zero-adjacency -/

/-- C1: whenever `hint()` returns a coordinate, that coordinate was not in
`hinted_cells` at call time (so no previous call returned it), its cell is
unrevealed, non-hazardous, and has `surrounding_mines_count = 0`; the
coordinate is added to `hinted_cells`; and consequently no later `hint()`
call on any state that retains the recorded hint (hints are only ever
added, and reveals never touch `hinted_cells`) can return the same
coordinate again. -/
theorem hint_returns_fresh_fully_safe (g : Grid) (x : Nat × Nat) (g' : Grid)
    (h : Grid.hint g = (some x, g')) :
    x ∉ g.hinted_cells ∧
    (g.getCell x.1 x.2).is_open = false ∧
    (g.getCell x.1 x.2).has_mine = false ∧
    (g.getCell x.1 x.2).surrounding_mines_count = 0 ∧
    g'.hinted_cells = insert x g.hinted_cells ∧
    (∀ (g₂ : Grid) (y : Nat × Nat) (g₃ : Grid),
      g'.hinted_cells ⊆ g₂.hinted_cells → Grid.hint g₂ = (some y, g₃) → y ≠ x) := by
  obtain ⟨hscan, rfl⟩ := hint_eq_some h
  obtain ⟨hfs, hxin⟩ := hint_scan_sound g _ (coords_subset_board g) x hscan
  obtain ⟨hh1, hh2, hh3, hh4⟩ := (fully_safe_iff g x.1 x.2).mp hfs
  rw [Prod.mk.eta] at hh1
  refine ⟨hh1, hh2, hh3, hh4, rfl, ?_⟩
  intro g₂ y g₃ hsub hy
  obtain ⟨hscan2, -⟩ := hint_eq_some hy
  obtain ⟨hfs2, -⟩ := hint_scan_sound g₂ _ (coords_subset_board g₂) y hscan2
  obtain ⟨hy1, -⟩ := (fully_safe_iff g₂ y.1 y.2).mp hfs2
  intro hcon
  subst hcon
  apply hy1
  rw [Prod.mk.eta]
  exact hsub (Finset.mem_insert_self _ _)

/-- Witness for C1 on the 3×3 example grid: the first hint is (0, 2). -/
theorem hint_returns_fresh_fully_safe_witness :
    (0, 2) ∉ exampleGrid.hinted_cells ∧
    (exampleGrid.getCell 0 2).is_open = false ∧
    (exampleGrid.getCell 0 2).has_mine = false ∧
    (exampleGrid.getCell 0 2).surrounding_mines_count = 0 ∧
    ({ exampleGrid with hinted_cells := {(0, 2)} } : Grid).hinted_cells
      = insert (0, 2) exampleGrid.hinted_cells ∧
    (∀ (g₂ : Grid) (y : Nat × Nat) (g₃ : Grid),
      ({ exampleGrid with hinted_cells := {(0, 2)} } : Grid).hinted_cells
          ⊆ g₂.hinted_cells →
      Grid.hint g₂ = (some y, g₃) → y ≠ (0, 2)) :=
  hint_returns_fresh_fully_safe exampleGrid (0, 2)
    { exampleGrid with hinted_cells := {(0, 2)} } (by decide)

/-! ## C4: no hint without a zero-adjacency safe cell -/

/-- C4: when no in-bounds cell is simultaneously unhinted, unrevealed,
non-hazardous and of zero adjacency count, `hint()` returns none — even if
unrevealed non-hazardous cells with nonzero counts remain. -/
theorem hint_none_without_zero_adjacency (g : Grid)
    (h : ∀ r < g.height, ∀ c < g.width,
      ¬((r, c) ∉ g.hinted_cells ∧ (g.getCell r c).is_open = false ∧
        (g.getCell r c).has_mine = false ∧
        (g.getCell r c).surrounding_mines_count = 0)) :
    (Grid.hint g).1 = none := by
  rcases hres : Grid.hint g with ⟨res, g'⟩
  cases res with
  | none => rfl
  | some x =>
    obtain ⟨hscan, -⟩ := hint_eq_some hres
    obtain ⟨hfs, hxin⟩ := hint_scan_sound g _ (coords_subset_board g) x hscan
    obtain ⟨hb1, hb2⟩ := (mem_board_coords g x).mp hxin
    have hcontra := h x.1 hb1 x.2 hb2
    exact absurd ((fully_safe_iff g x.1 x.2).mp hfs) hcontra

/-- Witness for C4: the 2×2 grid with one mine has unrevealed safe cells,
all with nonzero adjacency counts, and `hint()` returns none. -/
theorem hint_none_without_zero_adjacency_witness :
    (Grid.hint exampleGrid22).1 = none ∧ has_unopened_non_mines exampleGrid22 = true :=
  ⟨hint_none_without_zero_adjacency exampleGrid22 (by decide), by decide⟩

/-! ## C9: the search recursion is depth-bounded by the grid size -/

/-- C9: the hint search terminates on every finite board: the `visited`
set strictly grows at each nested call and stays inside the
`width * height` grid coordinates, so the recursion depth never exceeds
`width * height` — formally, running the search with the depth budget
`width * height` already yields the result of any larger budget (the
fuel-free Python recursion); and the outer row-major seed scan visits
exactly `width * height` candidates. -/
theorem hint_search_depth_bounded (g : Grid) :
    (∀ fuel row col, row < g.height → col < g.width →
      g.width * g.height ≤ fuel →
      backtrack_search g fuel row col ∅
        = backtrack_search g (g.width * g.height) row col ∅) ∧
    (grid_coordinate_positions g.width g.height).length = g.width * g.height := by
  constructor
  · intro fuel row col hr hc hf
    have hcard : (board_coords g).card = g.width * g.height := by
      rw [card_board_coords, Nat.mul_comm]
    apply backtrack_search_fuel_stable g ((board_coords g).card) fuel
      (g.width * g.height) row col ∅
    · exact (mem_board_coords g (row, col)).mpr ⟨hr, hc⟩
    · simp
    · exact Finset.empty_subset _
    · simp
    · rw [Finset.card_empty, Nat.sub_zero, hcard]
      omega
    · rw [Finset.card_empty, Nat.sub_zero, hcard]
  · exact length_grid_coordinate_positions g.width g.height

/-- Witness for C9 at the 3×3 example grid: fuel 12 agrees with fuel
`width * height = 9` from seed (0, 1). -/
theorem hint_search_depth_bounded_witness :
    backtrack_search exampleGrid 12 0 1 ∅
      = backtrack_search exampleGrid (exampleGrid.width * exampleGrid.height) 0 1 ∅ :=
  (hint_search_depth_bounded exampleGrid).1 12 0 1 (by decide) (by decide) (by decide)

/-! ## C10: the search explores the whole grid, so an existing fully-safe
cell is always found -/

/-- C10: the depth-first search recurses into every 8-neighbour regardless
of its mine or revealed status (only `visited` restricts it), so a failed
search from any in-bounds seed has visited the entire grid; consequently,
whenever some in-bounds cell is unhinted, unrevealed, non-hazardous and of
zero adjacency count, `hint()` returns a coordinate with those properties —
never none — independent of connectivity through unrevealed cells. -/
theorem hint_search_reaches_entire_grid (g : Grid)
    (hw : 2 ≤ g.width) (hh : 2 ≤ g.height) :
    (∀ row col (V' : Finset (Nat × Nat)), row < g.height → col < g.width →
      backtrack_search g (g.width * g.height) row col ∅ = (none, V') →
      ∀ p : Nat × Nat, p.1 < g.height → p.2 < g.width → p ∈ V') ∧
    ((∃ r c, r < g.height ∧ c < g.width ∧
        (r, c) ∉ g.hinted_cells ∧ (g.getCell r c).is_open = false ∧
        (g.getCell r c).has_mine = false ∧
        (g.getCell r c).surrounding_mines_count = 0) →
      ∃ x, (Grid.hint g).1 = some x ∧
        x ∉ g.hinted_cells ∧ (g.getCell x.1 x.2).is_open = false ∧
        (g.getCell x.1 x.2).has_mine = false ∧
        (g.getCell x.1 x.2).surrounding_mines_count = 0) := by
  constructor
  · intro row col V' hr hc hnone p hp1 hp2
    have hcard : (board_coords g).card = g.width * g.height := by
      rw [card_board_coords, Nat.mul_comm]
    obtain ⟨hins, hclo⟩ := backtrack_search_closure g ((board_coords g).card)
      (g.width * g.height) row col ∅ V'
      ((mem_board_coords g (row, col)).mpr ⟨hr, hc⟩) (by simp)
      (Finset.empty_subset _)
      (by rw [Finset.card_empty, Nat.sub_zero])
      (by rw [Finset.card_empty, Nat.sub_zero, hcard]) hnone
    have hseed : (row, col) ∈ V' := hins (Finset.mem_insert_self _ _)
    have hclosed : ∀ x ∈ V', ∀ q ∈ get_neighbours g x.1 x.2, q ∈ V' := by
      intro x hx q hq
      exact (hclo x hx (by simp)).2 q hq
    have hcover := closed_set_covers g V' hclosed (row + p.1 + col + p.2)
      row col p.1 p.2 hseed hr hc hp1 hp2 (by omega)
    rwa [Prod.mk.eta] at hcover
  · rintro ⟨r, c, hr, hc, hfs1, hfs2, hfs3, hfs4⟩
    have hfs : fully_safe g r c = true :=
      (fully_safe_iff g r c).mpr ⟨hfs1, hfs2, hfs3, hfs4⟩
    rcases hres : Grid.hint g with ⟨res, g'⟩
    cases res with
    | some x =>
      obtain ⟨hscan, -⟩ := hint_eq_some hres
      obtain ⟨hxfs, -⟩ := hint_scan_sound g _ (coords_subset_board g) x hscan
      obtain ⟨h1, h2, h3, h4⟩ := (fully_safe_iff g x.1 x.2).mp hxfs
      rw [Prod.mk.eta] at h1
      exact ⟨x, rfl, h1, h2, h3, h4⟩
    | none =>
      exfalso
      have hscan : hint_scan g (grid_coordinate_positions g.width g.height)
          = none := by
        rw [Grid.hint] at hres
        rcases hsc : hint_scan g (grid_coordinate_positions g.width g.height)
          with _ | y
        · rfl
        · rw [hsc] at hres
          exact absurd hres (by simp)
      have hhintable : hintable g r c = true := by
        rw [hintable_iff]
        exact ⟨hfs1, hfs2, hfs3⟩
      have hdfs := hint_scan_none g _ hscan (r, c)
        ((mem_grid_coordinate_positions _ _ _).mpr ⟨hr, hc⟩) hhintable
      have hdfs' : (backtrack_search g (g.width * g.height) r c ∅).1 = none := hdfs
      have hfuel : 1 ≤ g.width * g.height := by
        have h4 : 2 * 2 ≤ g.width * g.height := Nat.mul_le_mul hw hh
        omega
      obtain ⟨f, hf⟩ : ∃ f, g.width * g.height = f + 1 :=
        ⟨g.width * g.height - 1, by omega⟩
      rw [hf, backtrack_search_succ, if_pos hfs] at hdfs'
      exact absurd hdfs' (by simp)

/-- Witness for C10 at the 3×3 example grid. -/
theorem hint_search_reaches_entire_grid_witness :
    (∀ row col (V' : Finset (Nat × Nat)),
      row < exampleGrid.height → col < exampleGrid.width →
      backtrack_search exampleGrid (exampleGrid.width * exampleGrid.height)
          row col ∅ = (none, V') →
      ∀ p : Nat × Nat, p.1 < exampleGrid.height → p.2 < exampleGrid.width →
        p ∈ V') ∧
    ((∃ r c, r < exampleGrid.height ∧ c < exampleGrid.width ∧
        (r, c) ∉ exampleGrid.hinted_cells ∧
        (exampleGrid.getCell r c).is_open = false ∧
        (exampleGrid.getCell r c).has_mine = false ∧
        (exampleGrid.getCell r c).surrounding_mines_count = 0) →
      ∃ x, (Grid.hint exampleGrid).1 = some x ∧
        x ∉ exampleGrid.hinted_cells ∧
        (exampleGrid.getCell x.1 x.2).is_open = false ∧
        (exampleGrid.getCell x.1 x.2).has_mine = false ∧
        (exampleGrid.getCell x.1 x.2).surrounding_mines_count = 0) :=
  hint_search_reaches_entire_grid exampleGrid (by decide) (by decide)

/-! ## C6: coordinate validation and `has_mine` indexing -/

/-- Python list indexing: a negative index `i` with `-len ≤ i` wraps around
to `len + i`; an index outside `[-len, len)` raises `IndexError`, modelled
as `none`. -/
def pyGet {α : Type} (l : List α) (i : Int) : Option α :=
  let j : Int := if i < 0 then i + l.length else i
  if 0 ≤ j ∧ j < (l.length : Int) then l[j.toNat]? else none

/-- Mirrors `Grid.has_mine` (`self.cells[coordinate.row][coordinate.column]
.has_mine`) with Python indexing semantics on both axes. -/
def has_mine_py (g : Grid) (row column : Int) : Option Bool :=
  (pyGet g.cells row).bind (fun r => (pyGet r column).map (fun cell => cell.has_mine))

theorem pyGet_isSome {α : Type} (l : List α) (i : Int) :
    (pyGet l i).isSome = true ↔ (-(l.length : Int) ≤ i ∧ i < (l.length : Int)) := by
  rw [pyGet]
  by_cases hneg : i < 0
  · simp only [if_pos hneg]
    by_cases hin : (0 : Int) ≤ i + l.length ∧ i + l.length < (l.length : Int)
    · rw [if_pos hin]
      have hj : (i + l.length).toNat < l.length := by omega
      rw [List.getElem?_eq_getElem hj]
      simp only [Option.isSome_some, true_iff]
      omega
    · rw [if_neg hin]
      simp only [Option.isSome_none, Bool.false_eq_true, false_iff]
      omega
  · simp only [if_neg hneg]
    by_cases hin : (0 : Int) ≤ i ∧ i < (l.length : Int)
    · rw [if_pos hin]
      have hj : i.toNat < l.length := by omega
      rw [List.getElem?_eq_getElem hj]
      simp only [Option.isSome_some, true_iff]
      omega
    · rw [if_neg hin]
      simp only [Option.isSome_none, Bool.false_eq_true, false_iff]
      omega

theorem pyGet_mem {α : Type} {l : List α} {i : Int} {a : α}
    (h : pyGet l i = some a) : a ∈ l := by
  rw [pyGet] at h
  split at h
  · split at h
    · obtain ⟨hlt, rfl⟩ := List.getElem?_eq_some_iff.mp h
      exact List.getElem_mem _
    · exact absurd h (by simp)
  · split at h
    · obtain ⟨hlt, rfl⟩ := List.getElem?_eq_some_iff.mp h
      exact List.getElem_mem _
    · exact absurd h (by simp)

/-- Mirrors `Minesweeper._get_valid_coordinate`: keep reading until an
input in `[0, max_index]` arrives (an exhausted input stream, on which the
Python loop would block forever, is `none`). -/
def get_valid_coordinate (max_index : Nat) : List Int → Option Nat
  | [] => none
  | x :: rest =>
    if 0 ≤ x ∧ x ≤ (max_index : Int) then some x.toNat
    else get_valid_coordinate max_index rest

theorem get_valid_coordinate_le (max_index : Nat) :
    ∀ inputs v, get_valid_coordinate max_index inputs = some v → v ≤ max_index := by
  intro inputs
  induction inputs with
  | nil =>
    intro v h
    exact absurd h (by simp [get_valid_coordinate])
  | cons x rest ih =>
    intro v h
    rw [get_valid_coordinate] at h
    split at h
    · obtain rfl : x.toNat = v := Option.some.inj h
      omega
    · exact ih v h

/-- Mirrors `Minesweeper._get_user_guess`: each attempt is one pass of the
outer `while` loop (a column input stream with bound `width - 1`, then a
row input stream with bound `height - 1`); an already-open cell re-prompts
with the next attempt. -/
def get_user_guess (g : Grid) : List (List Int × List Int) → Option (Nat × Nat)
  | [] => none
  | (column_inputs, row_inputs) :: rest =>
    match get_valid_coordinate (g.width - 1) column_inputs,
          get_valid_coordinate (g.height - 1) row_inputs with
    | some column_index, some row_index =>
      if is_cell_open g row_index column_index then get_user_guess g rest
      else some (row_index, column_index)
    | _, _ => none

/-- C6 counterexample: the coordinate (-1, 0) lies outside
`[0,height) × [0,width)`, yet `has_mine` does not fail: Python's negative
indexing wraps `-1` to the last row, and the access returns the mine flag
of cell (1, 0) of the 2×2 example grid.  There is no `OutOfBounds` (or
`AlreadyRevealed`) failure anywhere: the interactive loop re-prompts
instead. -/
theorem out_of_bounds_access_succeeds :
    has_mine_py exampleGrid22 (-1) 0 = some false := by decide

/-- C6 (amended): there is no reveal-with-error API.  `has_mine` follows
Python indexing — it raises (`none`) exactly for indices outside
`[-len, len)`, and negative indices in range wrap around instead of
failing; coordinate validation lives in the prompt loop
`_get_user_guess`, which only ever returns an in-bounds, not-yet-open
coordinate and re-prompts (without mutating any state — it is a pure
read of the grid) on out-of-range or already-open input. -/
theorem reveal_validation_behaviour (g : Grid) (hwf : g.Wf)
    (hw : 1 ≤ g.width) (hh : 1 ≤ g.height) :
    (∀ row column : Int,
      (has_mine_py g row column).isSome = true ↔
        (-(g.height : Int) ≤ row ∧ row < (g.height : Int) ∧
         -(g.width : Int) ≤ column ∧ column < (g.width : Int))) ∧
    (∀ attempts r c, get_user_guess g attempts = some (r, c) →
      r < g.height ∧ c < g.width ∧ is_cell_open g r c = false) := by
  obtain ⟨hlen, hrows⟩ := hwf
  constructor
  · intro row column
    rw [has_mine_py]
    rcases hrow : pyGet g.cells row with _ | rw
    · have hnone : (pyGet g.cells row).isSome = false := by rw [hrow]; rfl
      simp only [Option.none_bind, Option.isSome_none, Bool.false_eq_true, false_iff]
      intro ⟨h1, h2, _⟩
      have := (pyGet_isSome g.cells row).mpr ⟨by omega, by omega⟩
      rw [hnone] at this
      exact absurd this (by simp)
    · have hsome : (pyGet g.cells row).isSome = true := by rw [hrow]; rfl
      have hrowlen : rw.length = g.width := hrows rw (pyGet_mem hrow)
      simp only [Option.some_bind, Option.isSome_map']
      rw [pyGet_isSome, hrowlen]
      have hrange := (pyGet_isSome g.cells row).mp hsome
      rw [hlen] at hrange
      constructor
      · intro ⟨h1, h2⟩
        exact ⟨hrange.1, hrange.2, h1, h2⟩
      · intro ⟨_, _, h3, h4⟩
        exact ⟨h3, h4⟩
  · intro attempts
    induction attempts with
    | nil =>
      intro r c h
      exact absurd h (by simp [get_user_guess])
    | cons a rest ih =>
      intro r c h
      obtain ⟨column_inputs, row_inputs⟩ := a
      rw [get_user_guess] at h
      rcases hcol : get_valid_coordinate (g.width - 1) column_inputs with _ | col
      · rw [hcol] at h
        exact absurd h (by simp)
      · rcases hrowv : get_valid_coordinate (g.height - 1) row_inputs with _ | rv
        · rw [hcol, hrowv] at h
          exact absurd h (by simp)
        · rw [hcol, hrowv] at h
          simp only at h
          by_cases hopen : is_cell_open g rv col = true
          · rw [if_pos hopen] at h
            exact ih r c h
          · rw [if_neg hopen] at h
            obtain ⟨h1, h2⟩ := Prod.mk.inj (Option.some.inj h)
            subst h1
            subst h2
            refine ⟨?_, ?_, ?_⟩
            · have := get_valid_coordinate_le _ _ _ hrowv
              omega
            · have := get_valid_coordinate_le _ _ _ hcol
              omega
            · cases hoc : is_cell_open g rv col
              · rfl
              · exact absurd hoc hopen

/-- Witness for the amended C6 at the 2×2 example grid: a first
out-of-range column input (5) is rejected and re-prompted, and the
returned guess (1, 0) is in-bounds and unopened. -/
theorem reveal_validation_behaviour_witness :
    ((∀ row column : Int,
      (has_mine_py exampleGrid22 row column).isSome = true ↔
        (-(exampleGrid22.height : Int) ≤ row ∧ row < (exampleGrid22.height : Int) ∧
         -(exampleGrid22.width : Int) ≤ column ∧
           column < (exampleGrid22.width : Int))) ∧
    (∀ attempts r c, get_user_guess exampleGrid22 attempts = some (r, c) →
      r < exampleGrid22.height ∧ c < exampleGrid22.width ∧
        is_cell_open exampleGrid22 r c = false)) ∧
    get_user_guess exampleGrid22 [([5, 0], [1])] = some (1, 0) :=
  ⟨reveal_validation_behaviour exampleGrid22 (by decide) (by decide) (by decide),
   by decide⟩

/-! ## C7: the play-loop state machine -/

/-- Mirrors `Grid.has_mine` for the in-bounds coordinates the validated
guess loop supplies. -/
def has_mine_at (g : Grid) (r c : Nat) : Bool := (g.getCell r c).has_mine

/-- A player action inside the `Minesweeper.play` loop. -/
inductive PlayAction where
  | guess (p : Nat × Nat)
  | hintRequest
deriving DecidableEq

/-- Session state as observable from `Minesweeper.play`: `inProgress`
while the loop runs, `lost` after `_has_guessed_mine` returns true (the
mine cell is replaced in place by the string marker; its coordinate is
recorded here), `won` when the loop condition `has_unopened_non_mines`
turns false. -/
inductive GState where
  | inProgress (g : Grid)
  | lost (g : Grid) (p : Nat × Nat)
  | won (g : Grid)
deriving DecidableEq

/-- One iteration of the `Minesweeper.play` loop: a validated guess either
hits a mine (break: Lost), opens the cell and wins if no unopened non-mine
cell remains (loop `else`: Won), or continues; a hint request only updates
the grid's `hinted_cells`.  In the terminal states the loop has exited, so
no action produces any transition. -/
def play_step : GState → PlayAction → GState
  | .inProgress g, .guess p =>
    if has_mine_at g p.1 p.2 then .lost g p
    else
      let g' := g.openCell p.1 p.2
      if has_unopened_non_mines g' then .inProgress g' else .won g'
  | .inProgress g, .hintRequest => .inProgress (Grid.hint g).2
  | s, _ => s

/-- A concrete Won-terminal board: 2×2, one mine at (0, 0), every
non-mine cell opened (`has_unopened_non_mines` is false). -/
def wonGrid : Grid :=
  ⟨2, 2,
    [[⟨true, 0, false⟩, ⟨false, 1, true⟩],
     [⟨false, 1, true⟩, ⟨false, 1, true⟩]], ∅⟩

/-- C7 counterexample: the claim requires every reveal or hint call after
a terminal state to fail with `GameOver`, but the code has no `GameOver`
error at all.  `wonGrid` is terminal (Won), yet `Cell.open` on the one
remaining cell still succeeds and mutates the board, and `Grid.hint`
still runs its normal search, returning the ordinary value `none` rather
than failing. -/
theorem no_game_over_after_terminal :
    has_unopened_non_mines wonGrid = false ∧
    (wonGrid.getCell 0 0).is_open = false ∧
    ((wonGrid.openCell 0 0).getCell 0 0).is_open = true ∧
    Grid.hint wonGrid = (none, wonGrid) := by decide

/-- C7 (amended): the loop admits exactly the transitions
`InProgress → Lost` (mine guessed), `InProgress → Won` (last non-mine cell
opened), `InProgress → InProgress` (safe guess with safe cells remaining,
or a hint request); `Lost` and `Won` are terminal in the sense that the
loop has exited and no further transition exists.  But operations invoked
on the board after a terminal state do not fail with `GameOver` — no such
error exists (see `no_game_over_after_terminal`). -/
theorem play_state_machine :
    (∀ s a, play_step s a = s ∨ ∃ g, s = GState.inProgress g) ∧
    (∀ g p a, play_step (GState.lost g p) a = GState.lost g p) ∧
    (∀ g a, play_step (GState.won g) a = GState.won g) ∧
    (∀ g p, has_mine_at g p.1 p.2 = true →
      play_step (GState.inProgress g) (PlayAction.guess p) = GState.lost g p) ∧
    (∀ g p, has_mine_at g p.1 p.2 = false →
      has_unopened_non_mines (g.openCell p.1 p.2) = false →
      play_step (GState.inProgress g) (PlayAction.guess p)
        = GState.won (g.openCell p.1 p.2)) ∧
    (∀ g p, has_mine_at g p.1 p.2 = false →
      has_unopened_non_mines (g.openCell p.1 p.2) = true →
      play_step (GState.inProgress g) (PlayAction.guess p)
        = GState.inProgress (g.openCell p.1 p.2)) ∧
    (∀ g, play_step (GState.inProgress g) PlayAction.hintRequest
      = GState.inProgress (Grid.hint g).2) := by
  refine ⟨?_, ?_, ?_, ?_, ?_, ?_, ?_⟩
  · intro s a
    cases s with
    | inProgress g => exact Or.inr ⟨g, rfl⟩
    | lost g p => exact Or.inl rfl
    | won g => exact Or.inl rfl
  · intro g p a
    cases a <;> rfl
  · intro g a
    cases a <;> rfl
  · intro g p hmine
    simp [play_step, hmine]
  · intro g p hmine hwon
    simp [play_step, hmine, hwon]
  · intro g p hmine hcont
    simp [play_step, hmine, hcont]
  · intro g
    rfl

/-- Witness for the amended C7: guessing the mine of `wonGrid` from an
in-progress state transitions to Lost. -/
theorem play_state_machine_witness :
    play_step (GState.inProgress wonGrid) (PlayAction.guess (0, 0))
      = GState.lost wonGrid (0, 0) :=
  play_state_machine.2.2.2.1 wonGrid (0, 0) (by decide)
